import Mathlib

/-!
Verification development for the syntax parser core of the yash shell.

The token-level parser engine is translated from `src/parser/core.rs`
(`Parser`, `Rec`, `substitute_alias`, `take_token_manual`,
`take_token_auto`, here-document bookkeeping) and the grammar routines
from `yash-syntax/src/parser.rs` (redirections, simple commands,
compound commands, pipelines, and-or lists, lists, `command_line`).
The character-level text sub-lexer is translated from
`yash-syntax/src/parser/lex/text.rs`, and the operator table from
`yash-syntax/src/parser/lex/op.rs`.  The `return` built-in comes from
`yash-builtin/src/return.rs`.

Parts of the repository that are not present in this extract (the
lexer core that produces tokens, `source.rs`, `syntax.rs`, `fill.rs`)
are modelled from the specification; each such definition carries a
doc comment starting with `Modelled from the spec`.
-/

/-- Modelled from the spec: origin of a line of source code
(`source.rs` is not part of this extract).  Only the data needed by
the parser is retained: an alias-substitution source records the name
of the substituted alias and the source it came from, so that the
alias chain can be tested transitively. -/
inductive Source where
  | Unknown : Source
  | AliasSub (aliasName : String) (parent : Source) : Source
deriving Repr, DecidableEq

/-- Modelled from the spec: `Source::is_alias_for(name)` is true iff
the source chain contains an alias replacement for `name`. -/
def Source.is_alias_for : Source → String → Bool
  | Source.Unknown, _ => false
  | Source.AliasSub n parent, name => n = name || parent.is_alias_for name

/-- A line of source code: text, 1-based line number, origin. -/
structure Line where
  value : String
  number : Nat
  source : Source
deriving Repr, DecidableEq

/-- A position in the source: a line and a 1-based column. -/
structure Location where
  line : Line
  column : Nat
deriving Repr, DecidableEq

/-- Modelled from the spec: a unit of a word or text (`syntax.rs` is
not part of this extract).  Command substitutions and backquotes only
record enough data for the claims at hand. -/
inductive TextUnit where
  | Literal (c : Char) : TextUnit
  | Backslashed (c : Char) : TextUnit
  | CommandSubst (content : String) (location : Location) : TextUnit
  | Backquote (content : String) (location : Location) : TextUnit
deriving Repr, DecidableEq

/-- A text is a sequence of text units (struct `Text(Vec<TextUnit>)`). -/
def Text := List TextUnit
deriving Repr, DecidableEq

/-- A word: a sequence of text units together with its location. -/
structure Word where
  units : List TextUnit
  location : Location
deriving Repr, DecidableEq

/-- Modelled from the spec: `MaybeLiteral::to_string_if_literal`
returns the word as a string iff every unit is a plain literal. -/
def Word.toStringIfLiteral (w : Word) : Option String :=
  if w.units.all (fun u => match u with | TextUnit.Literal _ => true | _ => false) then
    some (String.mk (w.units.filterMap
      (fun u => match u with | TextUnit.Literal c => some c | _ => none)))
  else none

/-- The characters of the `Display` form of a sequence of text units. -/
def displayChars : List TextUnit → List Char
  | [] => []
  | TextUnit.Literal c :: rest => c :: displayChars rest
  | TextUnit.Backslashed c :: rest => '\\' :: c :: displayChars rest
  | TextUnit.CommandSubst content _ :: rest =>
    '$' :: '(' :: (content.data ++ [')'] ++ displayChars rest)
  | TextUnit.Backquote content _ :: rest =>
    '`' :: (content.data ++ ['`'] ++ displayChars rest)

/-- Modelled from the spec: the `Display` form of a word (used by
`Redir::fd` parsing, which calls `word.to_string()`). -/
def Word.toDisplayString (w : Word) : String :=
  String.mk (displayChars w.units)

/-- The reserved words, from `lex/keyword.rs` as listed by the spec. -/
inductive Keyword where
  | If | Then | Else | Elif | Fi | Do | Done
  | Case | Esac | While | Until | For | In
  | OpenBrace | CloseBrace | Bang | Function
deriving Repr, DecidableEq

/-- Operator token identifier, from `yash-syntax/src/parser/lex/op.rs`. -/
inductive Operator where
  | Newline | And | AndAnd | OpenParen | CloseParen
  | Semicolon | SemicolonSemicolon
  | Less | LessAnd | LessOpenParen | LessLess | LessLessDash
  | LessLessLess | LessGreater
  | Greater | GreaterAnd | GreaterOpenParen | GreaterGreater
  | GreaterGreaterBar | GreaterBar
  | Bar | BarBar
deriving Repr, DecidableEq

/-- Token identifier (`TokenId` in `lex/mod.rs`): an operator, a word
token optionally classified as a keyword, an IO number, or the end of
input. -/
inductive TokenId where
  | Operator (op : Operator) : TokenId
  | Token (keyword : Option Keyword) : TokenId
  | IoNumber : TokenId
  | EndOfInput : TokenId
deriving Repr, DecidableEq

/-- A token produced by the lexer: its id, the verbatim word with its
location, and the index at which the token started in the input. -/
structure Token where
  id : TokenId
  word : Word
  index : Nat
deriving Repr, DecidableEq

/-- An alias definition: name, replacement text, global flag and the
location of its definition. -/
structure Alias where
  name : String
  replacement : String
  global : Bool
  origin : Location
deriving Repr, DecidableEq

/-- Alias set lookup (`AliasSet::get`). -/
def aliasGet (aliases : List Alias) (name : String) : Option Alias :=
  aliases.find? (fun a => a.name = name)

/-- A here-document whose content has not been read yet
(`PartialHereDoc` in `lex/heredoc.rs`). -/
structure PartialHereDoc where
  delimiter : Word
  remove_tabs : Bool
deriving Repr, DecidableEq

/-- A here-document with contents (`HereDoc` in `syntax.rs`). -/
structure HereDoc where
  delimiter : Word
  remove_tabs : Bool
  content : Text
deriving Repr, DecidableEq

/-- Types of errors that may happen in parsing, merging the flat
`ErrorCause` of `src/parser/core.rs` with the `SyntaxError` variants
referenced by `yash-syntax/src/parser.rs`. -/
inductive ErrorCause where
  | UnexpectedToken
  | MissingRedirOperand
  | MissingHereDocDelimiter
  | MissingHereDocContent
  | FdOutOfRange
  | UnclosedCommandSubstitution (opening_location : Location)
  | UnclosedArrayValue (opening_location : Location)
  | UnclosedParen (opening_location : Location)
  | UnclosedSubshell (opening_location : Location)
  | EmptySubshell
  | UnclosedGrouping (opening_location : Location)
  | EmptyGrouping
  | UnclosedDoClause (opening_location : Location)
  | EmptyDoClause
  | UnclosedWhileClause (opening_location : Location)
  | EmptyWhileCondition
  | UnclosedUntilClause (opening_location : Location)
  | EmptyUntilCondition
  | MissingForName
  | InvalidForName
  | InvalidForValue
  | MissingForBody (opening_location : Location)
  | UnmatchedParenthesis
  | MissingFunctionBody
  | InvalidFunctionBody
  | MissingPipelineAfterAndThen
  | MissingPipelineAfterOrElse
  | DoubleNegation
  | BangAfterBar
  | MissingCommandAfterBang
  | MissingCommandAfterBar
deriving Repr, DecidableEq

/-- Explanation of a failure in parsing: a cause and a location. -/
structure Error where
  cause : ErrorCause
  location : Location
deriving Repr, DecidableEq

/-- `Rec`: result modifier signalling that alias substitution was
performed without consuming any token (`AliasSubstituted`) or that
parsing succeeded (`Parsed`). -/
inductive Rec (T : Type) where
  | AliasSubstituted : Rec T
  | Parsed (t : T) : Rec T
deriving Repr, DecidableEq

/-- The value of a decimal digit sequence. -/
def digitsVal (ds : List Char) : Nat :=
  ds.foldl (fun a c => a * 10 + (c.toNat - '0'.toNat)) 0

/-- Modelled from the spec: Rust's `str::parse::<u32>()` on a list of
characters: an optional leading `+` followed by at least one decimal
digit; anything else fails, as does a value above the `u32` range. -/
def parseU32Chars (cs : List Char) : Option Nat :=
  let ds := if cs.headD ' ' = '+' then cs.tail else cs
  if ds ≠ [] ∧ ds.all Char.isDigit then
    if digitsVal ds < 4294967296 then some (digitsVal ds) else none
  else none

/-- Modelled from the spec: Rust's `str::parse::<u32>()` restricted to
the strings this parser feeds it. -/
def parseU32 (s : String) : Option Nat :=
  parseU32Chars s.data

/-- The parser state.  The fields `aliases`, `unread` and `readhd`
translate the fields `aliases`, `unread_here_docs` and
`read_here_docs` of struct `Parser` in `src/parser/core.rs`.  The
lexer, whose source is not part of this extract, is modelled as the
remaining fields: `tokens` is the stream of tokens it will produce and
`eof` the sticky end-of-input token produced after that; `afterBlank`
answers `is_after_blank_ending_alias` for a token index; `expand`
gives the tokens the lexer produces from an alias replacement applied
at a token index; `blankOracle` answers `peek_char`-based blank tests
(`has_blank`); `readHD` reads the content of one here-document,
consuming input. -/
structure PState where
  aliases : List Alias
  tokens : List Token
  eof : Token
  afterBlank : Nat → Bool
  expand : Nat → Alias → List Token
  blankOracle : List Token → Bool
  readHD : PartialHereDoc → List Token → HereDoc × List Token
  unread : List PartialHereDoc
  readhd : List HereDoc

/-- `Parser::peek_token`: the next token without consuming it.  The
end-of-input token is sticky: it is returned unchanged once the stream
is exhausted. -/
def peekToken (s : PState) : Token :=
  s.tokens.headD s.eof

/-- `Parser::take_token_raw`: consume the next token, without alias
substitution. -/
def takeTokenRaw (s : PState) : Token × PState :=
  match s.tokens with
  | [] => (s.eof, s)
  | t :: rest => (t, { s with tokens := rest })

/-- `Parser::substitute_alias`: perform alias substitution on a token
that has just been taken.  Substitution happens only if the alias set
is nonempty, the token id is `Token(_)`, its word is a bare literal
naming a defined alias, the word's source is not transitively an alias
replacement of the same name, and the token is in command-name
position, or the alias is global, or the token follows a blank-ending
alias replacement. -/
def substituteAlias (s : PState) (token : Token) (isCommandName : Bool) :
    Rec Token × PState :=
  if s.aliases.isEmpty then (Rec.Parsed token, s) else
  match token.id with
  | TokenId.Token _ =>
    match token.word.toStringIfLiteral with
    | some name =>
      if token.word.location.line.source.is_alias_for name then
        (Rec.Parsed token, s)
      else
        match aliasGet s.aliases name with
        | some a =>
          if isCommandName || a.global || s.afterBlank token.index then
            (Rec.AliasSubstituted,
             { s with tokens := s.expand token.index a ++ s.tokens })
          else (Rec.Parsed token, s)
        | none => (Rec.Parsed token, s)
    | none => (Rec.Parsed token, s)
  | _ => (Rec.Parsed token, s)

/-- `Parser::take_token_manual`: raw take followed by at most one
alias substitution. -/
def takeTokenManual (s : PState) (isCommandName : Bool) : Rec Token × PState :=
  let (token, s') := takeTokenRaw s
  substituteAlias s' token isCommandName

/-- Does the token's keyword classification belong to the list? -/
def keywordIn (t : Token) (kws : List Keyword) : Bool :=
  match t.id with
  | TokenId.Token (some kw) => kws.contains kw
  | _ => false

/-- `Parser::take_token_auto`: repeatedly substitute aliases until the
token's keyword classification is in the supplied list (returned
unchanged) or no substitution applies.  The `fuel` argument bounds the
number of substitutions; `none` means the bound was hit. -/
def takeTokenAuto (kws : List Keyword) : Nat → PState → Option (Token × PState)
  | 0, _ => none
  | fuel + 1, s =>
    let (token, s') := takeTokenRaw s
    if keywordIn token kws then some (token, s')
    else
      match substituteAlias s' token false with
      | (Rec.Parsed t, s'') => some (t, s'')
      | (Rec.AliasSubstituted, s'') => takeTokenAuto kws fuel s''

/-- `Parser::has_blank`: whether a blank lies before the next token
(answered by the lexer oracle on the remaining stream). -/
def hasBlank (s : PState) : Bool :=
  s.blankOracle s.tokens

/-- `Parser::memorize_unread_here_doc`. -/
def memorizeUnreadHereDoc (s : PState) (hd : PartialHereDoc) : PState :=
  { s with unread := s.unread ++ [hd] }

/-- Helper draining the list of pending partial here-documents through
the lexer's content reader. -/
def drainHereDocs (readHD : PartialHereDoc → List Token → HereDoc × List Token) :
    List PartialHereDoc → List Token → List HereDoc → List HereDoc × List Token
  | [], ts, acc => (acc, ts)
  | p :: ps, ts, acc =>
    let (hd, ts') := readHD p ts
    drainHereDocs readHD ps ts' (acc ++ [hd])

/-- `Parser::here_doc_contents`: read contents for every pending
partial here-document, in order, appending the results to the list of
read here-documents. -/
def hereDocContents (s : PState) : PState :=
  let (hds, ts') := drainHereDocs s.readHD s.unread s.tokens []
  { s with unread := [], tokens := ts', readhd := s.readhd ++ hds }

/-- `Parser::ensure_no_unread_here_doc`: error `MissingHereDocContent`
at the first pending partial's delimiter location, if any remains. -/
def ensureNoUnreadHereDoc (s : PState) : Except Error Unit :=
  match s.unread with
  | [] => Except.ok ()
  | hd :: _ =>
    Except.error { cause := ErrorCause.MissingHereDocContent,
                   location := hd.delimiter.location }

/-- `Parser::take_read_here_docs`: return the read here-documents,
emptying the internal list. -/
def takeReadHereDocs (s : PState) : List HereDoc × PState :=
  (s.readhd, { s with readhd := [] })

/-- Modelled from the spec: the nine normal redirection operators
(`RedirOp` in `syntax.rs`). -/
inductive RedirOp where
  | FileIn | FileInOut | FileOut | FileAppend | FileClobber
  | FdIn | FdOut | Pipe | HereString
deriving Repr, DecidableEq

/-- Modelled from the spec: `RedirOp::try_from(Operator)` maps
`< <> > >> >| <& >& >>| <<<` to the corresponding normal redirection
operator and fails on every other operator. -/
def redirOpTryFrom : Operator → Option RedirOp
  | Operator.Less => some RedirOp.FileIn
  | Operator.LessGreater => some RedirOp.FileInOut
  | Operator.Greater => some RedirOp.FileOut
  | Operator.GreaterGreater => some RedirOp.FileAppend
  | Operator.GreaterBar => some RedirOp.FileClobber
  | Operator.LessAnd => some RedirOp.FdIn
  | Operator.GreaterAnd => some RedirOp.FdOut
  | Operator.GreaterGreaterBar => some RedirOp.Pipe
  | Operator.LessLessLess => some RedirOp.HereString
  | _ => none

/-- The placeholder for a here-document in the pre-fill AST
(`MissingHereDoc` in `fill.rs`). -/
inductive MissingHereDoc where
  | missing : MissingHereDoc
deriving Repr, DecidableEq

/-- The body of a redirection, parameterised by the here-document
representation `H` (placeholder before the fill pass, full
here-document after). -/
inductive RedirBody (H : Type) where
  | Normal (op : RedirOp) (operand : Word) : RedirBody H
  | HereDoc (h : H) : RedirBody H
deriving Repr, DecidableEq

/-- A redirection: optional fd and a body. -/
structure Redir (H : Type) where
  fd : Option Nat
  body : RedirBody H
deriving Repr, DecidableEq

/-- The value of an assignment: scalar word or array of words. -/
inductive Value where
  | Scalar (w : Word) : Value
  | Array (ws : List Word) : Value
deriving Repr, DecidableEq

/-- An assignment: name, value, location. -/
structure Assign where
  name : String
  value : Value
  location : Location
deriving Repr, DecidableEq

/-- Is `c` valid as the first character of a POSIX name? -/
def isNameStart (c : Char) : Bool :=
  c.isAlpha || c = '_'

/-- Is `c` valid as a later character of a POSIX name? -/
def isNameChar (c : Char) : Bool :=
  c.isAlphanum || c = '_'

/-- Helper for `assignTryFrom`: split the leading literal units at the
first literal `=`, returning the characters before it and the units
after it. -/
def splitAtEq : List TextUnit → Option (List Char × List TextUnit)
  | [] => none
  | TextUnit.Literal c :: rest =>
    if c = '=' then some ([], rest)
    else
      match splitAtEq rest with
      | some (cs, tail) => some (c :: cs, tail)
      | none => none
  | _ => none

/-- Modelled from the spec: `Assign::try_from(word)` succeeds iff the
word begins with a literal POSIX name (`[A-Za-z_][A-Za-z0-9_]*`)
followed by a literal `=`; the assignment's value is the scalar word
made of the remaining units, and its location is the word's. -/
def assignTryFrom (w : Word) : Option Assign :=
  match splitAtEq w.units with
  | none => none
  | some (cs, tail) =>
    match cs with
    | [] => none
    | c0 :: rest =>
      if isNameStart c0 ∧ rest.all isNameChar then
        some { name := String.mk cs,
               value := Value.Scalar { units := tail, location := w.location },
               location := w.location }
      else none

/-- A simple command: assignments, words and redirections. -/
structure SimpleCommand (H : Type) where
  assigns : List Assign
  words : List Word
  redirs : List (Redir H)
deriving Repr, DecidableEq

/-- `SimpleCommand::is_empty`. -/
def SimpleCommand.isEmptySC {H : Type} (c : SimpleCommand H) : Bool :=
  c.assigns.isEmpty && c.words.isEmpty && c.redirs.isEmpty

/-- `SimpleCommand::is_one_word`: exactly one word and nothing else. -/
def SimpleCommand.isOneWord {H : Type} (c : SimpleCommand H) : Bool :=
  c.assigns.isEmpty && c.words.length = 1 && c.redirs.isEmpty

/-- Condition between two pipelines of an and-or list. -/
inductive AndOr where
  | AndThen | OrElse
deriving Repr, DecidableEq

/-- The `MissingPipeline(AndOr)` error cause. -/
def missingPipelineCause : AndOr → ErrorCause
  | AndOr.AndThen => ErrorCause.MissingPipelineAfterAndThen
  | AndOr.OrElse => ErrorCause.MissingPipelineAfterOrElse

mutual
/-- A list of items (`List` in `syntax.rs`; named `CmdList` here to
avoid clashing with Lean's `List`). -/
inductive CmdList (H : Type) where
  | mk (items : List (Item H)) : CmdList H

/-- An item of a list: an and-or list and its async flag. -/
inductive Item (H : Type) where
  | mk (and_or : AndOrList H) (is_async : Bool) : Item H

/-- An and-or list: a first pipeline and `&&`/`||` continuations. -/
inductive AndOrList (H : Type) where
  | mk (first : Pipeline H) (rest : List (AndOr × Pipeline H)) : AndOrList H

/-- A pipeline: commands connected by `|`, with a negation flag. -/
inductive Pipeline (H : Type) where
  | mk (commands : List (Command H)) (negation : Bool) : Pipeline H

/-- A command: simple, compound, or function definition. -/
inductive Command (H : Type) where
  | Simple (c : SimpleCommand H) : Command H
  | Compound (c : FullCompoundCommand H) : Command H
  | Function (f : FunctionDefinition H) : Command H

/-- A compound command with its trailing redirections. -/
inductive FullCompoundCommand (H : Type) where
  | mk (command : CompoundCommand H) (redirs : List (Redir H)) : FullCompoundCommand H

/-- A compound command. -/
inductive CompoundCommand (H : Type) where
  | Grouping (l : CmdList H) : CompoundCommand H
  | Subshell (l : CmdList H) : CompoundCommand H
  | For (name : Word) (values : Option (List Word)) (body : CmdList H) :
      CompoundCommand H
  | While (condition : CmdList H) (body : CmdList H) : CompoundCommand H
  | Until (condition : CmdList H) (body : CmdList H) : CompoundCommand H

/-- A function definition: keyword flag, name and body. -/
inductive FunctionDefinition (H : Type) where
  | mk (has_keyword : Bool) (name : Word) (body : FullCompoundCommand H) :
      FunctionDefinition H
end

/-- The items of a `CmdList`. -/
def CmdList.items {H : Type} : CmdList H → List (Item H)
  | CmdList.mk items => items

mutual
/-- Modelled from the spec: the fill pass (`fill.rs` is not part of
this extract) replaces here-document placeholders in the AST with the
read here-documents in declaration order; `none` signals either an
exhausted fuel bound or a missing here-document (an invariant
violation that the source treats as a programmer error). -/
def fillList : Nat → CmdList MissingHereDoc → List HereDoc →
    Option (CmdList HereDoc × List HereDoc)
  | 0, _, _ => none
  | fuel + 1, CmdList.mk items, hds =>
    match fillItems fuel items hds with
    | some (items', hds') => some (CmdList.mk items', hds')
    | none => none

/-- Fill pass over a list of items. -/
def fillItems : Nat → List (Item MissingHereDoc) → List HereDoc →
    Option (List (Item HereDoc) × List HereDoc)
  | 0, _, _ => none
  | _ + 1, [], hds => some ([], hds)
  | fuel + 1, Item.mk ao async :: rest, hds =>
    match fillAndOrList fuel ao hds with
    | some (ao', hds') =>
      match fillItems fuel rest hds' with
      | some (rest', hds'') => some (Item.mk ao' async :: rest', hds'')
      | none => none
    | none => none

/-- Fill pass over an and-or list. -/
def fillAndOrList : Nat → AndOrList MissingHereDoc → List HereDoc →
    Option (AndOrList HereDoc × List HereDoc)
  | 0, _, _ => none
  | fuel + 1, AndOrList.mk first rest, hds =>
    match fillPipeline fuel first hds with
    | some (first', hds') =>
      match fillAndOrRest fuel rest hds' with
      | some (rest', hds'') => some (AndOrList.mk first' rest', hds'')
      | none => none
    | none => none

/-- Fill pass over the continuations of an and-or list. -/
def fillAndOrRest : Nat → List (AndOr × Pipeline MissingHereDoc) → List HereDoc →
    Option (List (AndOr × Pipeline HereDoc) × List HereDoc)
  | 0, _, _ => none
  | _ + 1, [], hds => some ([], hds)
  | fuel + 1, (c, p) :: rest, hds =>
    match fillPipeline fuel p hds with
    | some (p', hds') =>
      match fillAndOrRest fuel rest hds' with
      | some (rest', hds'') => some ((c, p') :: rest', hds'')
      | none => none
    | none => none

/-- Fill pass over a pipeline. -/
def fillPipeline : Nat → Pipeline MissingHereDoc → List HereDoc →
    Option (Pipeline HereDoc × List HereDoc)
  | 0, _, _ => none
  | fuel + 1, Pipeline.mk commands negation, hds =>
    match fillCommands fuel commands hds with
    | some (commands', hds') => some (Pipeline.mk commands' negation, hds')
    | none => none

/-- Fill pass over a list of commands. -/
def fillCommands : Nat → List (Command MissingHereDoc) → List HereDoc →
    Option (List (Command HereDoc) × List HereDoc)
  | 0, _, _ => none
  | _ + 1, [], hds => some ([], hds)
  | fuel + 1, c :: rest, hds =>
    match fillCommand fuel c hds with
    | some (c', hds') =>
      match fillCommands fuel rest hds' with
      | some (rest', hds'') => some (c' :: rest', hds'')
      | none => none
    | none => none

/-- Fill pass over one command. -/
def fillCommand : Nat → Command MissingHereDoc → List HereDoc →
    Option (Command HereDoc × List HereDoc)
  | 0, _, _ => none
  | fuel + 1, Command.Simple c, hds =>
    match fillRedirs fuel c.redirs hds with
    | some (redirs', hds') =>
      some (Command.Simple { assigns := c.assigns, words := c.words,
                             redirs := redirs' }, hds')
    | none => none
  | fuel + 1, Command.Compound fc, hds =>
    match fillFullCompound fuel fc hds with
    | some (fc', hds') => some (Command.Compound fc', hds')
    | none => none
  | fuel + 1, Command.Function (FunctionDefinition.mk kw name body), hds =>
    match fillFullCompound fuel body hds with
    | some (body', hds') =>
      some (Command.Function (FunctionDefinition.mk kw name body'), hds')
    | none => none

/-- Fill pass over a full compound command. -/
def fillFullCompound : Nat → FullCompoundCommand MissingHereDoc → List HereDoc →
    Option (FullCompoundCommand HereDoc × List HereDoc)
  | 0, _, _ => none
  | fuel + 1, FullCompoundCommand.mk cc redirs, hds =>
    match fillCompound fuel cc hds with
    | some (cc', hds') =>
      match fillRedirs fuel redirs hds' with
      | some (redirs', hds'') => some (FullCompoundCommand.mk cc' redirs', hds'')
      | none => none
    | none => none

/-- Fill pass over a compound command. -/
def fillCompound : Nat → CompoundCommand MissingHereDoc → List HereDoc →
    Option (CompoundCommand HereDoc × List HereDoc)
  | 0, _, _ => none
  | fuel + 1, CompoundCommand.Grouping l, hds =>
    match fillList fuel l hds with
    | some (l', hds') => some (CompoundCommand.Grouping l', hds')
    | none => none
  | fuel + 1, CompoundCommand.Subshell l, hds =>
    match fillList fuel l hds with
    | some (l', hds') => some (CompoundCommand.Subshell l', hds')
    | none => none
  | fuel + 1, CompoundCommand.For name values body, hds =>
    match fillList fuel body hds with
    | some (body', hds') => some (CompoundCommand.For name values body', hds')
    | none => none
  | fuel + 1, CompoundCommand.While condition body, hds =>
    match fillList fuel condition hds with
    | some (condition', hds') =>
      match fillList fuel body hds' with
      | some (body', hds'') =>
        some (CompoundCommand.While condition' body', hds'')
      | none => none
    | none => none
  | fuel + 1, CompoundCommand.Until condition body, hds =>
    match fillList fuel condition hds with
    | some (condition', hds') =>
      match fillList fuel body hds' with
      | some (body', hds'') =>
        some (CompoundCommand.Until condition' body', hds'')
      | none => none
    | none => none

/-- Fill pass over a list of redirections: each placeholder takes the
next read here-document. -/
def fillRedirs : Nat → List (Redir MissingHereDoc) → List HereDoc →
    Option (List (Redir HereDoc) × List HereDoc)
  | 0, _, _ => none
  | _ + 1, [], hds => some ([], hds)
  | fuel + 1, r :: rest, hds =>
    match r.body, hds with
    | RedirBody.Normal op operand, _ =>
      match fillRedirs fuel rest hds with
      | some (rest', hds') =>
        some ({ fd := r.fd, body := RedirBody.Normal op operand } :: rest', hds')
      | none => none
    | RedirBody.HereDoc _, hd :: hds' =>
      match fillRedirs fuel rest hds' with
      | some (rest', hds'') =>
        some ({ fd := r.fd, body := RedirBody.HereDoc hd } :: rest', hds'')
      | none => none
    | RedirBody.HereDoc _, [] => none
end

/-- Result of a fueled parser routine: `none` when the fuel bound was
hit, otherwise a parse error or a value together with the next state. -/
abbrev PRes (α : Type) := Option (Except Error (α × PState))

/-- Return a value and a state. -/
def pret {α : Type} (a : α) (s : PState) : PRes α :=
  some (Except.ok (a, s))

/-- Return a parse error. -/
def perr {α : Type} (e : Error) : PRes α :=
  some (Except.error e)

/-- Sequence two fueled parser routines. -/
def pbind {α β : Type} (x : PRes α) (f : α → PState → PRes β) : PRes β :=
  match x with
  | none => none
  | some (Except.error e) => some (Except.error e)
  | some (Except.ok (a, s)) => f a s

/-- Forget the final parser state of a result. -/
def resValue {α : Type} (x : PRes α) : Option (Except Error α) :=
  match x with
  | none => none
  | some (Except.error e) => some (Except.error e)
  | some (Except.ok (a, _)) => some (Except.ok a)

/-- `Parser::newline_and_here_doc_contents`: if the current token is a
newline, consume it and read all pending here-document contents. -/
def newlineAndHereDocContents (s : PState) : Bool × PState :=
  if (peekToken s).id = TokenId.Operator Operator.Newline then
    let (_, s') := takeTokenRaw s
    (true, hereDocContents s')
  else (false, s)

/-- The `while self.newline_and_here_doc_contents().await? {}` loops. -/
def skipNewlines : Nat → PState → Option PState
  | 0, _ => none
  | fuel + 1, s =>
    let (b, s') := newlineAndHereDocContents s
    if b then skipNewlines fuel s' else some s'

/-- The word-collecting loop of `Parser::array_values`. -/
def arrayValuesLoop : Nat → Location → List Word → PState → PRes (Option (List Word))
  | 0, _, _, _ => none
  | fuel + 1, opening, words, s =>
    match takeTokenAuto [] fuel s with
    | none => none
    | some (next, s) =>
      match next.id with
      | TokenId.Operator Operator.Newline => arrayValuesLoop fuel opening words s
      | TokenId.Operator Operator.CloseParen => pret (some words) s
      | TokenId.Token _ => arrayValuesLoop fuel opening (words ++ [next.word]) s
      | _ => perr { cause := ErrorCause.UnclosedArrayValue opening,
                    location := next.word.location }

/-- `Parser::array_values`: parse `( word … )` after an empty scalar
assignment; `none` result if the next token is not `(`. -/
def arrayValues : Nat → PState → PRes (Option (List Word))
  | 0, _ => none
  | fuel + 1, s =>
    if (peekToken s).id ≠ TokenId.Operator Operator.OpenParen then pret none s
    else
      let (opening, s) := takeTokenRaw s
      arrayValuesLoop fuel opening.word.location [] s

/-- `Parser::redirection_operand`: the operand of a redirection
operator, or `none` when the next token is an operator or the end of
input. -/
def redirectionOperand : Nat → PState → PRes (Option Word)
  | 0, _ => none
  | fuel + 1, s =>
    match takeTokenAuto [] fuel s with
    | none => none
    | some (operand, s) =>
      match operand.id with
      | TokenId.Token _ => pret (some operand.word) s
      | TokenId.Operator _ => pret none s
      | TokenId.EndOfInput => pret none s
      | TokenId.IoNumber => pret (some operand.word) s

/-- `Parser::normal_redirection_body`: operator token, then operand;
a missing operand is `MissingRedirOperand` at the operator. -/
def normalRedirectionBody (op : RedirOp) :
    Nat → PState → PRes (RedirBody MissingHereDoc)
  | 0, _ => none
  | fuel + 1, s =>
    let (opTok, s) := takeTokenRaw s
    pbind (redirectionOperand fuel s) fun opd s =>
      match opd with
      | some w => pret (RedirBody.Normal op w) s
      | none => perr { cause := ErrorCause.MissingRedirOperand,
                       location := opTok.word.location }

/-- `Parser::here_doc_redirection_body`: operator token, then the
delimiter; a missing delimiter is `MissingHereDocDelimiter` at the
operator; on success the partial here-document is memorised. -/
def hereDocRedirectionBody (removeTabs : Bool) :
    Nat → PState → PRes (RedirBody MissingHereDoc)
  | 0, _ => none
  | fuel + 1, s =>
    let (opTok, s) := takeTokenRaw s
    pbind (redirectionOperand fuel s) fun opd s =>
      match opd with
      | some w =>
        pret (RedirBody.HereDoc MissingHereDoc.missing)
          (memorizeUnreadHereDoc s { delimiter := w, remove_tabs := removeTabs })
      | none => perr { cause := ErrorCause.MissingHereDocDelimiter,
                       location := opTok.word.location }

/-- `Parser::redirection_body`: dispatch on the peeked operator. -/
def redirectionBody : Nat → PState → PRes (Option (RedirBody MissingHereDoc))
  | 0, _ => none
  | fuel + 1, s =>
    match (peekToken s).id with
    | TokenId.Operator op =>
      match redirOpTryFrom op with
      | some rop =>
        pbind (normalRedirectionBody rop fuel s) fun b s => pret (some b) s
      | none =>
        match op with
        | Operator.LessLess =>
          pbind (hereDocRedirectionBody false fuel s) fun b s => pret (some b) s
        | Operator.LessLessDash =>
          pbind (hereDocRedirectionBody true fuel s) fun b s => pret (some b) s
        | _ => pret none s
    | _ => pret none s

/-- `Parser::redirection`: an optional `IoNumber` token parsed into
the fd (overflow is `FdOutOfRange` at that token), then the body. -/
def redirection : Nat → PState → PRes (Option (Redir MissingHereDoc))
  | 0, _ => none
  | fuel + 1, s =>
    if (peekToken s).id = TokenId.IoNumber then
      let (token, s) := takeTokenRaw s
      match parseU32 token.word.toDisplayString with
      | some fd =>
        pbind (redirectionBody fuel s) fun b s =>
          pret (b.map (fun body => { fd := some fd, body := body })) s
      | none => perr { cause := ErrorCause.FdOutOfRange,
                       location := token.word.location }
    else
      pbind (redirectionBody fuel s) fun b s =>
        pret (b.map (fun body => { fd := none, body := body })) s

/-- The loop of `Parser::redirections`. -/
def redirectionsLoop : Nat → List (Redir MissingHereDoc) → PState →
    PRes (List (Redir MissingHereDoc))
  | 0, _, _ => none
  | fuel + 1, acc, s =>
    pbind (redirection fuel s) fun r s =>
      match r with
      | some redir => redirectionsLoop fuel (acc ++ [redir]) s
      | none => pret acc s

/-- `Parser::redirections`: a possibly empty sequence of redirections. -/
def redirections : Nat → PState → PRes (List (Redir MissingHereDoc))
  | 0, _ => none
  | fuel + 1, s => redirectionsLoop fuel [] s

/-- The accumulation loop of `Parser::simple_command`. -/
def simpleCommandLoop : Nat → SimpleCommand MissingHereDoc → PState →
    PRes (Rec (Option (SimpleCommand MissingHereDoc)))
  | 0, _, _ => none
  | fuel + 1, acc, s =>
    pbind (redirection fuel s) fun ro s =>
      match ro with
      | some redir =>
        simpleCommandLoop fuel { acc with redirs := acc.redirs ++ [redir] } s
      | none =>
        let cont : Bool :=
          match (peekToken s).id with
          | TokenId.Token (some _) => !acc.isEmptySC
          | TokenId.Token none => true
          | _ => false
        if cont = false then
          pret (Rec.Parsed (if acc.isEmptySC then none else some acc)) s
        else
          match takeTokenManual s acc.words.isEmpty with
          | (Rec.AliasSubstituted, s) =>
            if acc.isEmptySC then pret Rec.AliasSubstituted s
            else simpleCommandLoop fuel acc s
          | (Rec.Parsed token, s) =>
            if !acc.words.isEmpty then
              simpleCommandLoop fuel { acc with words := acc.words ++ [token.word] } s
            else
              match assignTryFrom token.word with
              | none =>
                simpleCommandLoop fuel { acc with words := acc.words ++ [token.word] } s
              | some assign =>
                let units :=
                  match assign.value with
                  | Value.Scalar w => w.units
                  | Value.Array _ => []
                if units.isEmpty ∧ ¬ hasBlank s then
                  pbind (arrayValues fuel s) fun aw s =>
                    match aw with
                    | some ws =>
                      simpleCommandLoop fuel
                        { acc with assigns :=
                            acc.assigns ++ [{ assign with value := Value.Array ws }] } s
                    | none =>
                      simpleCommandLoop fuel
                        { acc with assigns := acc.assigns ++ [assign] } s
                else
                  simpleCommandLoop fuel
                    { acc with assigns := acc.assigns ++ [assign] } s

/-- `Parser::simple_command`. -/
def simpleCommand : Nat → PState → PRes (Rec (Option (SimpleCommand MissingHereDoc)))
  | 0, _ => none
  | fuel + 1, s =>
    simpleCommandLoop fuel { assigns := [], words := [], redirs := [] } s

/-- `Parser::for_loop_name`. -/
def forLoopName : Nat → PState → PRes Word
  | 0, _ => none
  | fuel + 1, s =>
    match takeTokenAuto [] fuel s with
    | none => none
    | some (name, s) =>
      match name.id with
      | TokenId.EndOfInput =>
        perr { cause := ErrorCause.MissingForName, location := name.word.location }
      | TokenId.Operator Operator.Newline =>
        perr { cause := ErrorCause.MissingForName, location := name.word.location }
      | TokenId.Operator Operator.Semicolon =>
        perr { cause := ErrorCause.MissingForName, location := name.word.location }
      | TokenId.Operator _ =>
        perr { cause := ErrorCause.InvalidForName, location := name.word.location }
      | _ => pret name.word s

/-- The word-collecting loop of `Parser::for_loop_values` after `in`. -/
def forLoopValuesWords : Nat → List Word → Location → PState →
    PRes (Option (List Word) × Location)
  | 0, _, _, _ => none
  | fuel + 1, values, opening, s =>
    match takeTokenAuto [] fuel s with
    | none => none
    | some (next, s) =>
      match next.id with
      | TokenId.Token _ => forLoopValuesWords fuel (values ++ [next.word]) opening s
      | TokenId.IoNumber => forLoopValuesWords fuel (values ++ [next.word]) opening s
      | TokenId.Operator Operator.Semicolon => pret (some values, opening) s
      | TokenId.Operator Operator.Newline => pret (some values, opening) s
      | _ => perr { cause := ErrorCause.InvalidForValue,
                    location := next.word.location }

/-- The `in`-seeking loop of `Parser::for_loop_values`. -/
def forLoopValues : Nat → Bool → Location → PState →
    PRes (Option (List Word) × Location)
  | 0, _, _, _ => none
  | fuel + 1, firstLine, opening, s =>
    let pid := (peekToken s).id
    if pid = TokenId.Operator Operator.Semicolon ∧ firstLine then
      let (_, s) := takeTokenRaw s
      pret (none, opening) s
    else if pid = TokenId.Token (some Keyword.Do) then
      pret (none, opening) s
    else if pid = TokenId.Operator Operator.Newline then
      let (_, s) := newlineAndHereDocContents s
      forLoopValues fuel false opening s
    else if pid = TokenId.Token (some Keyword.In) then
      let (_, s) := takeTokenRaw s
      forLoopValuesWords fuel [] opening s
    else
      match takeTokenManual s false with
      | (Rec.AliasSubstituted, s) => forLoopValues fuel firstLine opening s
      | (Rec.Parsed token, s) =>
        perr { cause := ErrorCause.MissingForBody opening,
               location := token.word.location }

/-- A default word used where the source unwraps a value that is
guaranteed nonempty by its caller. -/
def dummyWord : Word :=
  { units := [],
    location := { line := { value := "", number := 1, source := Source.Unknown },
                  column := 1 } }

mutual
/-- `Parser::grouping`: `{ list }`. -/
def grouping : Nat → PState → PRes (CompoundCommand MissingHereDoc)
  | 0, _ => none
  | fuel + 1, s =>
    let (opening, s) := takeTokenRaw s
    pbind (maybeCompoundList fuel s) fun l s =>
      let (close, s) := takeTokenRaw s
      if close.id ≠ TokenId.Token (some Keyword.CloseBrace) then
        perr { cause := ErrorCause.UnclosedGrouping opening.word.location,
               location := close.word.location }
      else if l.items.isEmpty then
        perr { cause := ErrorCause.EmptyGrouping,
               location := opening.word.location }
      else pret (CompoundCommand.Grouping l) s

/-- `Parser::subshell`: `( list )`. -/
def subshell : Nat → PState → PRes (CompoundCommand MissingHereDoc)
  | 0, _ => none
  | fuel + 1, s =>
    let (opening, s) := takeTokenRaw s
    pbind (maybeCompoundList fuel s) fun l s =>
      let (close, s) := takeTokenRaw s
      if close.id ≠ TokenId.Operator Operator.CloseParen then
        perr { cause := ErrorCause.UnclosedSubshell opening.word.location,
               location := close.word.location }
      else if l.items.isEmpty then
        perr { cause := ErrorCause.EmptySubshell,
               location := opening.word.location }
      else pret (CompoundCommand.Subshell l) s

/-- `Parser::do_clause`: `do list done`, or `none` if the next token
is not `do`. -/
def doClause : Nat → PState → PRes (Option (CmdList MissingHereDoc))
  | 0, _ => none
  | fuel + 1, s =>
    if (peekToken s).id ≠ TokenId.Token (some Keyword.Do) then pret none s
    else
      let (opening, s) := takeTokenRaw s
      pbind (maybeCompoundList fuel s) fun l s =>
        let (close, s) := takeTokenRaw s
        if close.id ≠ TokenId.Token (some Keyword.Done) then
          perr { cause := ErrorCause.UnclosedDoClause opening.word.location,
                 location := close.word.location }
        else if l.items.isEmpty then
          perr { cause := ErrorCause.EmptyDoClause,
                 location := opening.word.location }
        else pret (some l) s

/-- `Parser::for_loop_body`: newlines, then a required do clause. -/
def forLoopBody : Nat → Location → PState → PRes (CmdList MissingHereDoc)
  | 0, _, _ => none
  | fuel + 1, opening, s =>
    match skipNewlines fuel s with
    | none => none
    | some s =>
      pbind (doClause fuel s) fun ob s =>
        match ob with
        | some body => pret body s
        | none =>
          match takeTokenManual s false with
          | (Rec.AliasSubstituted, s) => forLoopBody fuel opening s
          | (Rec.Parsed token, s) =>
            perr { cause := ErrorCause.MissingForBody opening,
                   location := token.word.location }

/-- `Parser::for_loop`. -/
def forLoop : Nat → PState → PRes (CompoundCommand MissingHereDoc)
  | 0, _ => none
  | fuel + 1, s =>
    let (opening, s) := takeTokenRaw s
    pbind (forLoopName fuel s) fun name s =>
      pbind (forLoopValues fuel true opening.word.location s) fun vres s =>
        pbind (forLoopBody fuel vres.2 s) fun body s =>
          pret (CompoundCommand.For name vres.1 body) s

/-- `Parser::while_loop`. -/
def whileLoop : Nat → PState → PRes (CompoundCommand MissingHereDoc)
  | 0, _ => none
  | fuel + 1, s =>
    let (opening, s) := takeTokenRaw s
    pbind (maybeCompoundList fuel s) fun condition s =>
      pbind (doClause fuel s) fun ob s =>
        match ob with
        | none =>
          let (t, _) := takeTokenRaw s
          perr { cause := ErrorCause.UnclosedWhileClause opening.word.location,
                 location := t.word.location }
        | some body =>
          if condition.items.isEmpty then
            perr { cause := ErrorCause.EmptyWhileCondition,
                   location := opening.word.location }
          else pret (CompoundCommand.While condition body) s

/-- `Parser::until_loop`. -/
def untilLoop : Nat → PState → PRes (CompoundCommand MissingHereDoc)
  | 0, _ => none
  | fuel + 1, s =>
    let (opening, s) := takeTokenRaw s
    pbind (maybeCompoundList fuel s) fun condition s =>
      pbind (doClause fuel s) fun ob s =>
        match ob with
        | none =>
          let (t, _) := takeTokenRaw s
          perr { cause := ErrorCause.UnclosedUntilClause opening.word.location,
                 location := t.word.location }
        | some body =>
          if condition.items.isEmpty then
            perr { cause := ErrorCause.EmptyUntilCondition,
                   location := opening.word.location }
          else pret (CompoundCommand.Until condition body) s

/-- `Parser::compound_command`: dispatch on the peeked token. -/
def compoundCommand : Nat → PState → PRes (Option (CompoundCommand MissingHereDoc))
  | 0, _ => none
  | fuel + 1, s =>
    match (peekToken s).id with
    | TokenId.Token (some Keyword.OpenBrace) =>
      pbind (grouping fuel s) fun c s => pret (some c) s
    | TokenId.Operator Operator.OpenParen =>
      pbind (subshell fuel s) fun c s => pret (some c) s
    | TokenId.Token (some Keyword.For) =>
      pbind (forLoop fuel s) fun c s => pret (some c) s
    | TokenId.Token (some Keyword.While) =>
      pbind (whileLoop fuel s) fun c s => pret (some c) s
    | TokenId.Token (some Keyword.Until) =>
      pbind (untilLoop fuel s) fun c s => pret (some c) s
    | _ => pret none s

/-- `Parser::full_compound_command`: a compound command with its
trailing redirections. -/
def fullCompoundCommand : Nat → PState →
    PRes (Option (FullCompoundCommand MissingHereDoc))
  | 0, _ => none
  | fuel + 1, s =>
    pbind (compoundCommand fuel s) fun oc s =>
      match oc with
      | none => pret none s
      | some c =>
        pbind (redirections fuel s) fun rs s =>
          pret (some (FullCompoundCommand.mk c rs)) s

/-- Body-seeking loop of `Parser::short_function_definition`. -/
def shortFunctionDefinitionBody : Nat → Word → PState →
    PRes (Command MissingHereDoc)
  | 0, _, _ => none
  | fuel + 1, name, s =>
    match skipNewlines fuel s with
    | none => none
    | some s =>
      pbind (fullCompoundCommand fuel s) fun ob s =>
        match ob with
        | some body =>
          pret (Command.Function (FunctionDefinition.mk false name body)) s
        | none =>
          match takeTokenManual s false with
          | (Rec.AliasSubstituted, s) => shortFunctionDefinitionBody fuel name s
          | (Rec.Parsed next, s) =>
            let cause :=
              match next.id with
              | TokenId.Token _ => ErrorCause.InvalidFunctionBody
              | _ => ErrorCause.MissingFunctionBody
            perr { cause := cause, location := next.word.location }

/-- `Parser::short_function_definition`: promote a one-word simple
command followed by `(` `)` to a function definition. -/
def shortFunctionDefinition : Nat → SimpleCommand MissingHereDoc → PState →
    PRes (Command MissingHereDoc)
  | 0, _, _ => none
  | fuel + 1, intro, s =>
    if ¬ intro.isOneWord ∨ (peekToken s).id ≠ TokenId.Operator Operator.OpenParen then
      pret (Command.Simple intro) s
    else
      let (_, s) := takeTokenRaw s
      match takeTokenAuto [] fuel s with
      | none => none
      | some (close, s) =>
        if close.id ≠ TokenId.Operator Operator.CloseParen then
          perr { cause := ErrorCause.UnmatchedParenthesis,
                 location := close.word.location }
        else
          let name := (intro.words.getLast?).getD dummyWord
          shortFunctionDefinitionBody fuel name s

/-- `Parser::command`: a simple command (possibly promoted to a
function definition) or a full compound command. -/
def command : Nat → PState → PRes (Rec (Option (Command MissingHereDoc)))
  | 0, _ => none
  | fuel + 1, s =>
    pbind (simpleCommand fuel s) fun r s =>
      match r with
      | Rec.AliasSubstituted => pret Rec.AliasSubstituted s
      | Rec.Parsed none =>
        pbind (fullCompoundCommand fuel s) fun oc s =>
          pret (Rec.Parsed (oc.map Command.Compound)) s
      | Rec.Parsed (some c) =>
        pbind (shortFunctionDefinition fuel c s) fun cmd s =>
          pret (Rec.Parsed (some cmd)) s

/-- The command-seeking loop of `Parser::pipeline` after a `!`. -/
def pipelineBangLoop : Nat → Location → PState →
    PRes (Rec (Option (Pipeline MissingHereDoc)))
  | 0, _, _ => none
  | fuel + 1, location, s =>
    pbind (command fuel s) fun r s =>
      match r with
      | Rec.AliasSubstituted => pipelineBangLoop fuel location s
      | Rec.Parsed (some first) => pipelineBarLoop fuel [first] true s
      | Rec.Parsed none =>
        let next := peekToken s
        let cause :=
          if next.id = TokenId.Token (some Keyword.Bang) then
            ErrorCause.DoubleNegation
          else ErrorCause.MissingCommandAfterBang
        perr { cause := cause, location := location }

/-- The `|`-consuming loop of `Parser::pipeline`. -/
def pipelineBarLoop : Nat → List (Command MissingHereDoc) → Bool → PState →
    PRes (Rec (Option (Pipeline MissingHereDoc)))
  | 0, _, _, _ => none
  | fuel + 1, commands, negation, s =>
    if (peekToken s).id = TokenId.Operator Operator.Bar then
      let (bar, s) := takeTokenRaw s
      match skipNewlines fuel s with
      | none => none
      | some s => pipelineBarCmd fuel commands negation bar.word.location s
    else pret (Rec.Parsed (some (Pipeline.mk commands negation))) s

/-- The command-seeking loop of `Parser::pipeline` after a `|`. -/
def pipelineBarCmd : Nat → List (Command MissingHereDoc) → Bool → Location →
    PState → PRes (Rec (Option (Pipeline MissingHereDoc)))
  | 0, _, _, _, _ => none
  | fuel + 1, commands, negation, barLoc, s =>
    pbind (command fuel s) fun r s =>
      match r with
      | Rec.AliasSubstituted => pipelineBarCmd fuel commands negation barLoc s
      | Rec.Parsed (some next) =>
        pipelineBarLoop fuel (commands ++ [next]) negation s
      | Rec.Parsed none =>
        let next := peekToken s
        if next.id = TokenId.Token (some Keyword.Bang) then
          perr { cause := ErrorCause.BangAfterBar,
                 location := next.word.location }
        else
          perr { cause := ErrorCause.MissingCommandAfterBar, location := barLoc }

/-- `Parser::pipeline`. -/
def pipeline : Nat → PState → PRes (Rec (Option (Pipeline MissingHereDoc)))
  | 0, _ => none
  | fuel + 1, s =>
    pbind (command fuel s) fun r s =>
      match r with
      | Rec.AliasSubstituted => pret Rec.AliasSubstituted s
      | Rec.Parsed (some first) => pipelineBarLoop fuel [first] false s
      | Rec.Parsed none =>
        if (peekToken s).id = TokenId.Token (some Keyword.Bang) then
          let (bang, s) := takeTokenRaw s
          pipelineBangLoop fuel bang.word.location s
        else pret (Rec.Parsed none) s

/-- The `&&`/`||`-consuming loop of `Parser::and_or_list`. -/
def andOrLoop : Nat → Pipeline MissingHereDoc →
    List (AndOr × Pipeline MissingHereDoc) → PState →
    PRes (Rec (Option (AndOrList MissingHereDoc)))
  | 0, _, _, _ => none
  | fuel + 1, first, rest, s =>
    let cond :=
      match (peekToken s).id with
      | TokenId.Operator Operator.AndAnd => some AndOr.AndThen
      | TokenId.Operator Operator.BarBar => some AndOr.OrElse
      | _ => none
    match cond with
    | none => pret (Rec.Parsed (some (AndOrList.mk first rest))) s
    | some condition =>
      let (_, s) := takeTokenRaw s
      match skipNewlines fuel s with
      | none => none
      | some s => andOrPipe fuel first rest condition s

/-- The pipeline-seeking loop of `Parser::and_or_list` after an
operator. -/
def andOrPipe : Nat → Pipeline MissingHereDoc →
    List (AndOr × Pipeline MissingHereDoc) → AndOr → PState →
    PRes (Rec (Option (AndOrList MissingHereDoc)))
  | 0, _, _, _, _ => none
  | fuel + 1, first, rest, condition, s =>
    pbind (pipeline fuel s) fun r s =>
      match r with
      | Rec.AliasSubstituted => andOrPipe fuel first rest condition s
      | Rec.Parsed none =>
        perr { cause := missingPipelineCause condition,
               location := (peekToken s).word.location }
      | Rec.Parsed (some p) => andOrLoop fuel first (rest ++ [(condition, p)]) s

/-- `Parser::and_or_list`. -/
def andOrList : Nat → PState → PRes (Rec (Option (AndOrList MissingHereDoc)))
  | 0, _ => none
  | fuel + 1, s =>
    pbind (pipeline fuel s) fun r s =>
      match r with
      | Rec.AliasSubstituted => pret Rec.AliasSubstituted s
      | Rec.Parsed none => pret (Rec.Parsed none) s
      | Rec.Parsed (some p) => andOrLoop fuel p [] s

/-- The item-collecting loop of `Parser::list`. -/
def listLoop : Nat → List (Item MissingHereDoc) →
    Option (AndOrList MissingHereDoc) → PState →
    PRes (Rec (CmdList MissingHereDoc))
  | 0, _, _, _ => none
  | fuel + 1, items, result, s =>
    match result with
    | none => pret (Rec.Parsed (CmdList.mk items)) s
    | some and_or =>
      let step :=
        match (peekToken s).id with
        | TokenId.Operator Operator.Semicolon => (false, true)
        | TokenId.Operator Operator.And => (true, true)
        | _ => (false, false)
      let items := items ++ [Item.mk and_or step.1]
      if step.2 = false then pret (Rec.Parsed (CmdList.mk items)) s
      else
        let (_, s) := takeTokenRaw s
        listNext fuel items s

/-- The and-or-list-seeking loop of `Parser::list` after a separator. -/
def listNext : Nat → List (Item MissingHereDoc) → PState →
    PRes (Rec (CmdList MissingHereDoc))
  | 0, _, _ => none
  | fuel + 1, items, s =>
    pbind (andOrList fuel s) fun r s =>
      match r with
      | Rec.AliasSubstituted => listNext fuel items s
      | Rec.Parsed result => listLoop fuel items result s

/-- `Parser::list`: and-or lists separated by `;` or `&`. -/
def list : Nat → PState → PRes (Rec (CmdList MissingHereDoc))
  | 0, _ => none
  | fuel + 1, s =>
    pbind (andOrList fuel s) fun r s =>
      match r with
      | Rec.AliasSubstituted => pret Rec.AliasSubstituted s
      | Rec.Parsed result => listLoop fuel [] result s

/-- The loop of `Parser::maybe_compound_list`: repeatedly parse a list
(re-entering after alias substitution) and absorb newlines. -/
def maybeCompoundListLoop : Nat → List (Item MissingHereDoc) → PState →
    PRes (CmdList MissingHereDoc)
  | 0, _, _ => none
  | fuel + 1, items, s =>
    pbind (list fuel s) fun r s =>
      match r with
      | Rec.AliasSubstituted => maybeCompoundListLoop fuel items s
      | Rec.Parsed l =>
        let items := items ++ l.items
        let (b, s) := newlineAndHereDocContents s
        if b then maybeCompoundListLoop fuel items s
        else pret (CmdList.mk items) s

/-- `Parser::maybe_compound_list`. -/
def maybeCompoundList : Nat → PState → PRes (CmdList MissingHereDoc)
  | 0, _ => none
  | fuel + 1, s => maybeCompoundListLoop fuel [] s
end

/-- The fixpoint on `list()` at the start of `Parser::command_line`. -/
def commandLineList : Nat → PState → PRes (CmdList MissingHereDoc)
  | 0, _ => none
  | fuel + 1, s =>
    pbind (list fuel s) fun r s =>
      match r with
      | Rec.AliasSubstituted => commandLineList fuel s
      | Rec.Parsed l => pret l s

/-- The tail of `Parser::command_line`: check for pending partial
here-documents, then run the fill pass. -/
def commandLineFinish (fuel : Nat) (l : CmdList MissingHereDoc) (s : PState) :
    PRes (Option (CmdList HereDoc)) :=
  match ensureNoUnreadHereDoc s with
  | Except.error e => perr e
  | Except.ok _ =>
    let (hds, s) := takeReadHereDocs s
    match fillList fuel l hds with
    | none => none
    | some (l', _) => pret (some l') s

/-- `Parser::command_line`: a complete command optionally delimited by
a newline; `none` on end of input with no command. -/
def commandLine : Nat → PState → PRes (Option (CmdList HereDoc))
  | 0, _ => none
  | fuel + 1, s =>
    pbind (commandLineList fuel s) fun l s =>
      let (nl, s) := newlineAndHereDocContents s
      if nl then commandLineFinish fuel l s
      else
        let next := peekToken s
        if next.id ≠ TokenId.EndOfInput then
          perr { cause := ErrorCause.UnexpectedToken,
                 location := next.word.location }
        else if l.items.isEmpty then pret none s
        else commandLineFinish fuel l s

/-- A character of the raw input together with its location
(`SourceChar` in `source.rs`). -/
structure SourceChar where
  value : Char
  location : Location
deriving Repr, DecidableEq

/-- The character-level lexer state: the remaining input characters
and the location reported at end of input. -/
structure CLex where
  chars : List SourceChar
  endLoc : Location
deriving Repr, DecidableEq

/-- `Lexer::location`: the location of the next character, or the
end-of-input location. -/
def CLex.location (s : CLex) : Location :=
  match s.chars with
  | [] => s.endLoc
  | c :: _ => c.location

/-- Modelled from the spec: `Lexer::line_continuations` swallows every
leading backslash-newline pair (the lexer core is not part of this
extract; the spec defines a line continuation as the two-character
sequence backslash newline, consumed transparently). -/
def lineContinuations : List SourceChar → List SourceChar
  | a :: b :: rest =>
    if a.value = '\\' ∧ b.value = '\n' then lineContinuations rest
    else a :: b :: rest
  | cs => cs

/-- `Lexer::skip_if`: consume the next character iff it satisfies the
predicate. -/
def CLex.skipIf (p : Char → Bool) (s : CLex) : Bool × CLex :=
  match s.chars with
  | c :: rest => if p c.value then (true, { s with chars := rest }) else (false, s)
  | [] => (false, s)

/-- `Lexer::consume_char_if`: consume and return the next character
iff it satisfies the predicate. -/
def CLex.consumeCharIf (p : Char → Bool) (s : CLex) : Option (SourceChar × CLex) :=
  match s.chars with
  | c :: rest => if p c.value then some (c, { s with chars := rest }) else none
  | [] => none

/-- Modelled from the spec: `Lexer::dollar_unit` (its source file is
not part of this extract).  The model covers only inputs not starting
with `$`, on which the routine consumes nothing and returns `none`;
the spec's `$(…)` parsing and its `UnclosedCommandSubstitution` error
are outside the model, so every theorem quantifying over character
inputs carries the hypothesis that no `$` occurs in the input. -/
def dollarUnit (_s : CLex) : Option (TextUnit × CLex) :=
  none

/-- Modelled from the spec: `Lexer::backquote` (its source file is not
part of this extract).  The model covers only inputs not starting with
a backquote, on which the routine consumes nothing and returns `none`;
every theorem quantifying over character inputs carries the hypothesis
that no backquote occurs in the input. -/
def backquote (_doubleQuoted : Bool) (_s : CLex) : Option (TextUnit × CLex) :=
  none

/-- `Lexer::text_unit`: one unit of a text — a backslash escape, a
dollar unit, a backquote, or a literal character that is not a
delimiter — preceded by line continuations.  The lexer state is
returned in every case: as in the source, line continuations stay
consumed even when no unit is parsed. -/
def textUnit (isDelimiter : Char → Bool) (isEscapable : Char → Bool) (s : CLex) :
    Option TextUnit × CLex :=
  let s := { s with chars := lineContinuations s.chars }
  match CLex.skipIf (fun c => c = '\\') s with
  | (true, s) =>
    match CLex.consumeCharIf isEscapable s with
    | some (c, s) => (some (TextUnit.Backslashed c.value), s)
    | none => (some (TextUnit.Literal '\\'), s)
  | (false, s) =>
    match dollarUnit s with
    | some (u, s) => (some u, s)
    | none =>
      match backquote (¬ isEscapable '_') s with
      | some (u, s) => (some u, s)
      | none =>
        match CLex.consumeCharIf (fun c => ¬ isDelimiter c) s with
        | some (sc, s) => (some (TextUnit.Literal sc.value), s)
        | none => (none, s)

/-- `Lexer::text`: a (possibly empty) sequence of text units, ending
at the first delimiter. -/
def text (isDelimiter : Char → Bool) (isEscapable : Char → Bool) :
    Nat → CLex → Option (List TextUnit × CLex)
  | 0, _ => none
  | fuel + 1, s =>
    match textUnit isDelimiter isEscapable s with
    | (some u, s) =>
      match text isDelimiter isEscapable fuel s with
      | some (us, s) => some (u :: us, s)
      | none => none
    | (none, s) => some ([], s)

/-- The delimiter predicate built inside
`Lexer::text_with_parentheses`: `(` always delimits; while the stack
of open parentheses is nonempty only `)` delimits, and the caller's
predicate is ignored. -/
def isDelimiterOrParen (isDelimiter : Char → Bool) (openParenLocations : List Location)
    (c : Char) : Bool :=
  if c = '(' then true
  else if openParenLocations.isEmpty then isDelimiter c
  else c = ')'

/-- The loop of `Lexer::text_with_parentheses`, carrying the collected
units and the stack of open-parenthesis locations (most recent
first). -/
def textWithParenthesesLoop (isDelimiter : Char → Bool) (isEscapable : Char → Bool) :
    Nat → List TextUnit → List Location → CLex →
    Option (Except Error (List TextUnit × CLex))
  | 0, _, _, _ => none
  | fuel + 1, units, openLocs, s =>
    match text (isDelimiterOrParen isDelimiter openLocs) isEscapable fuel s with
    | none => none
    | some (nextUnits, s) =>
      let units := units ++ nextUnits
      match CLex.consumeCharIf (fun c => c = '(') s with
      | some (sc, s) =>
        textWithParenthesesLoop isDelimiter isEscapable fuel
          (units ++ [TextUnit.Literal '(']) (sc.location :: openLocs) s
      | none =>
        match openLocs with
        | openingLocation :: restLocs =>
          match CLex.skipIf (fun c => c = ')') s with
          | (true, s) =>
            textWithParenthesesLoop isDelimiter isEscapable fuel
              (units ++ [TextUnit.Literal ')']) restLocs s
          | (false, s) =>
            some (Except.error
              { cause := ErrorCause.UnclosedParen openingLocation,
                location := s.location })
        | [] => some (Except.ok (units, s))

/-- `Lexer::text_with_parentheses`: like `text`, but while unmatched
unquoted `(` are open the caller's delimiter predicate is ignored and
only a matching `)` can end the parenthesised part; an unmatched `(`
at end of input is an `UnclosedParen` error carrying the opening
location. -/
def textWithParentheses (isDelimiter : Char → Bool) (isEscapable : Char → Bool)
    (fuel : Nat) (s : CLex) : Option (Except Error (List TextUnit × CLex)) :=
  textWithParenthesesLoop isDelimiter isEscapable fuel [] [] s

/-- A field of an expanded word (`Field` in `yash-env`; qualified here
because Lean already has a `Field` class): its value and origin. -/
structure Yash.Field where
  value : String
  origin : Location
deriving Repr, DecidableEq

/-- `return_builtin` from `yash-builtin/src/return.rs`: the exit
status is the field at index 2 parsed as a `u32` (2 on a parse
failure), or 0 if that field is absent; the environment is unused and
no divert request is produced. -/
def return_builtin {E : Type} (_env : E) (args : List Yash.Field) : Nat × Option Unit :=
  let exit_status : Nat :=
    match args.get? 2 with
    | some field => (parseU32 field.value).getD 2
    | none => 0
  (exit_status, none)

/-- A line of the unknown source, for concrete runs. -/
def mkLine (v : String) : Line :=
  { value := v, number := 1, source := Source.Unknown }

/-- A location on line 1 of the unknown source. -/
def mkLoc (v : String) (col : Nat) : Location :=
  { line := mkLine v, column := col }

/-- A fully literal word. -/
def litWord (txt : String) (loc : Location) : Word :=
  { units := txt.data.map TextUnit.Literal, location := loc }

/-- Lexer oracle producing no tokens from an alias substitution. -/
def noExpand : Nat → Alias → List Token := fun _ _ => []

/-- Lexer oracle: no token follows a blank-ending alias replacement. -/
def noAfterBlank : Nat → Bool := fun _ => false

/-- Lexer oracle: no blank before the next token. -/
def noBlankOracle : List Token → Bool := fun _ => false

/-- Lexer oracle reading an empty content for every here-document. -/
def trivialReadHD : PartialHereDoc → List Token → HereDoc × List Token :=
  fun p ts =>
    ({ delimiter := p.delimiter, remove_tabs := p.remove_tabs, content := [] }, ts)

/-- The sticky end-of-input token at a location. -/
def eofTokenAt (loc : Location) (idx : Nat) : Token :=
  { id := TokenId.EndOfInput, word := { units := [], location := loc }, index := idx }

/-- A parser state over a concrete token stream with inert lexer
oracles and no pending here-documents. -/
def mkState (aliases : List Alias) (tokens : List Token) (eof : Token) : PState :=
  { aliases := aliases, tokens := tokens, eof := eof,
    afterBlank := noAfterBlank, expand := noExpand,
    blankOracle := noBlankOracle, readHD := trivialReadHD,
    unread := [], readhd := [] }

/-- The parser state for empty input. -/
def cEmptyState : PState := mkState [] [] (eofTokenAt (mkLoc "" 1) 0)

/-- The newline token of the input consisting of a lone newline. -/
def cNewlineTok : Token :=
  { id := TokenId.Operator Operator.Newline, word := litWord "\n" (mkLoc "\n" 1),
    index := 0 }

/-- The parser state for the input consisting of a lone newline. -/
def cNewlineState : PState :=
  mkState [] [cNewlineTok] (eofTokenAt (mkLoc "\n" 2) 1)

/-- The first `!` token of the input `" !  !"`, at column 2. -/
def cBang1 : Token :=
  { id := TokenId.Token (some Keyword.Bang), word := litWord "!" (mkLoc " !  !" 2),
    index := 1 }

/-- The second `!` token of the input `" !  !"`, at column 5. -/
def cBang2 : Token :=
  { id := TokenId.Token (some Keyword.Bang), word := litWord "!" (mkLoc " !  !" 5),
    index := 4 }

/-- The parser state for the input `" !  !"`. -/
def cDoubleBangState : PState :=
  mkState [] [cBang1, cBang2] (eofTokenAt (mkLoc " !  !" 6) 5)

/-- The `foo` token of the input `"foo | !"`, at column 1. -/
def cFooTok : Token :=
  { id := TokenId.Token none, word := litWord "foo" (mkLoc "foo | !" 1), index := 0 }

/-- The `|` token of the input `"foo | !"`, at column 5. -/
def cBarTok : Token :=
  { id := TokenId.Operator Operator.Bar, word := litWord "|" (mkLoc "foo | !" 5),
    index := 4 }

/-- The `!` token of the input `"foo | !"`, at column 7. -/
def cBang3 : Token :=
  { id := TokenId.Token (some Keyword.Bang), word := litWord "!" (mkLoc "foo | !" 7),
    index := 6 }

/-- The parser state for the input `"foo | !"`. -/
def cBarBangState : PState :=
  mkState [] [cFooTok, cBarTok, cBang3] (eofTokenAt (mkLoc "foo | !" 8) 7)

/-- The `<<` token of the input `"<<END"`, at column 1. -/
def cLessLessTok : Token :=
  { id := TokenId.Operator Operator.LessLess, word := litWord "<<" (mkLoc "<<END" 1),
    index := 0 }

/-- The `END` token of the input `"<<END"`, at column 3. -/
def cEndTok : Token :=
  { id := TokenId.Token none, word := litWord "END" (mkLoc "<<END" 3), index := 2 }

/-- The parser state for the input `"<<END"` (no trailing newline). -/
def cHereDocPendingState : PState :=
  mkState [] [cLessLessTok, cEndTok] (eofTokenAt (mkLoc "<<END" 6) 5)

/-- The `<<` token of the standalone input `"<<"`, at column 1. -/
def cLoneLessLessTok : Token :=
  { id := TokenId.Operator Operator.LessLess, word := litWord "<<" (mkLoc "<<" 1),
    index := 0 }

/-- The parser state for the standalone input `"<<"`. -/
def cLoneLessLessState : PState :=
  mkState [] [cLoneLessLessTok] (eofTokenAt (mkLoc "<<" 3) 2)

/-- A global alias `if` → `x`. -/
def cIfAlias : Alias :=
  { name := "if", replacement := "x", global := true, origin := mkLoc "?" 1 }

/-- The `if` token of the input `"if"`, tagged as a reserved word. -/
def cIfTok : Token :=
  { id := TokenId.Token (some Keyword.If), word := litWord "if" (mkLoc "if" 1),
    index := 0 }

/-- The `x` token produced by substituting the alias `if` → `x`. -/
def cXTok : Token :=
  { id := TokenId.Token none,
    word := { units := [TextUnit.Literal 'x'],
              location := { line := { value := "x", number := 1,
                                      source := Source.AliasSub "if" Source.Unknown },
                            column := 1 } },
    index := 0 }

/-- The parser state for the input `"if"` with the global alias
`if` → `x` defined. -/
def cIfState : PState :=
  { aliases := [cIfAlias], tokens := [cIfTok],
    eof := eofTokenAt (mkLoc "if" 3) 2,
    afterBlank := noAfterBlank, expand := fun _ _ => [cXTok],
    blankOracle := noBlankOracle, readHD := trivialReadHD,
    unread := [], readhd := [] }

/-- A token whose word `x` comes from a replacement of the alias `x`
itself (the loop-prevention situation). -/
def cLoopTok : Token :=
  { id := TokenId.Token none,
    word := { units := [TextUnit.Literal 'x'],
              location := { line := { value := "x", number := 1,
                                      source := Source.AliasSub "x" Source.Unknown },
                            column := 1 } },
    index := 0 }

/-- The parser state holding `cLoopTok` with an alias `x` defined. -/
def cLoopState : PState :=
  { aliases := [{ name := "x", replacement := "y", global := true,
                  origin := mkLoc "?" 1 }],
    tokens := [cLoopTok], eof := eofTokenAt (mkLoc "x" 2) 1,
    afterBlank := noAfterBlank, expand := noExpand,
    blankOracle := noBlankOracle, readHD := trivialReadHD,
    unread := [], readhd := [] }

/-- The characters of the input `"x(()"`. -/
def cParenChars : List SourceChar :=
  [{ value := 'x', location := mkLoc "x(()" 1 },
   { value := '(', location := mkLoc "x(()" 2 },
   { value := '(', location := mkLoc "x(()" 3 },
   { value := ')', location := mkLoc "x(()" 4 }]

/-- The character-level lexer state for the input `"x(()"`. -/
def cParenLex : CLex := { chars := cParenChars, endLoc := mkLoc "x(()" 5 }

/-- A state with one pending partial here-document. -/
def cUnreadState : PState :=
  { cEmptyState with unread := [{ delimiter := litWord "END" (mkLoc "<<END" 3),
                                  remove_tabs := false }] }

/-- The parser state for the input `"12< x"`. -/
def cFdInRangeState : PState :=
  mkState []
    [{ id := TokenId.IoNumber, word := litWord "12" (mkLoc "12< x" 1), index := 0 },
     { id := TokenId.Operator Operator.Less, word := litWord "<" (mkLoc "12< x" 3),
       index := 2 },
     { id := TokenId.Token none, word := litWord "x" (mkLoc "12< x" 5), index := 4 }]
    (eofTokenAt (mkLoc "12< x" 6) 5)

/-- The parser state for the input `"9999999999< x"`, whose IO number
exceeds the `u32` range. -/
def cFdOverflowState : PState :=
  mkState []
    [{ id := TokenId.IoNumber,
       word := litWord "9999999999" (mkLoc "9999999999< x" 1), index := 0 },
     { id := TokenId.Operator Operator.Less,
       word := litWord "<" (mkLoc "9999999999< x" 11), index := 10 },
     { id := TokenId.Token none,
       word := litWord "x" (mkLoc "9999999999< x" 13), index := 12 }]
    (eofTokenAt (mkLoc "9999999999< x" 14) 13)

/-- The argument fields of `return -n 12`. -/
def cReturnArgs : List Yash.Field :=
  [{ value := "return", origin := mkLoc "return -n 12" 1 },
   { value := "-n", origin := mkLoc "return -n 12" 8 },
   { value := "12", origin := mkLoc "return -n 12" 11 }]

/-- The display characters of a word made of literal units are exactly
those characters. -/
theorem displayChars_map_literal (ds : List Char) :
    displayChars (ds.map TextUnit.Literal) = ds := by
  induction ds with
  | nil => rfl
  | cons c t ih => simp [displayChars, ih]

/-- On a nonempty string of decimal digits, `parseU32Chars` returns
the digits' value when it is below `2^32` and fails otherwise. -/
theorem parseU32Chars_digits (ds : List Char) (h1 : ds ≠ [])
    (h2 : ds.all Char.isDigit = true) :
    parseU32Chars ds =
      if digitsVal ds < 4294967296 then some (digitsVal ds) else none := by
  cases ds with
  | nil => exact absurd rfl h1
  | cons c t =>
    have hcd : c.isDigit = true := by
      simp [List.all_cons] at h2; exact h2.1
    have hc : ¬ (c = '+') := by
      intro e; rw [e] at hcd; exact absurd hcd (by decide)
    simp [parseU32Chars, List.headD, hc, h2]

/-- One unfolding step of `redirection` on a stream whose head token
is an IO number. -/
theorem redirection_succ_io (fuel : Nat) (al : List Alias) (w : Word) (i : Nat)
    (ts : List Token) (eofTok : Token)
    (afterBlank : Nat → Bool) (expand : Nat → Alias → List Token)
    (blankOracle : List Token → Bool)
    (readHD : PartialHereDoc → List Token → HereDoc × List Token)
    (unread : List PartialHereDoc) (readhd : List HereDoc) :
    redirection (fuel + 1)
      { aliases := al,
        tokens := { id := TokenId.IoNumber, word := w, index := i } :: ts,
        eof := eofTok, afterBlank := afterBlank, expand := expand,
        blankOracle := blankOracle, readHD := readHD,
        unread := unread, readhd := readhd } =
      (match parseU32 w.toDisplayString with
       | some fd =>
         pbind (redirectionBody fuel
           { aliases := al, tokens := ts,
             eof := eofTok, afterBlank := afterBlank, expand := expand,
             blankOracle := blankOracle, readHD := readHD,
             unread := unread, readhd := readhd }) fun b s =>
           pret (b.map (fun body => { fd := some fd, body := body })) s
       | none => perr { cause := ErrorCause.FdOutOfRange,
                        location := w.location }) := rfl

/-- `substitute_alias` performs a substitution exactly when the token
id is `Token(_)`, the word is a bare literal naming a defined alias,
the word's source is not transitively a replacement of that alias, and
the command-name/global/blank-ending condition holds; otherwise it
returns the token unchanged. -/
theorem substituteAlias_characterization (s : PState) (t : Token) (b : Bool) :
    ((substituteAlias s t b).1 = Rec.AliasSubstituted ↔
      ((∃ k, t.id = TokenId.Token k) ∧
       ∃ name a, t.word.toStringIfLiteral = some name ∧
         t.word.location.line.source.is_alias_for name = false ∧
         aliasGet s.aliases name = some a ∧
         (b = true ∨ a.global = true ∨ s.afterBlank t.index = true))) ∧
    ((substituteAlias s t b).1 = Rec.AliasSubstituted ∨
     (substituteAlias s t b).1 = Rec.Parsed t) := by
  unfold substituteAlias
  by_cases he : s.aliases.isEmpty
  · rw [List.isEmpty_iff] at he
    simp [he, aliasGet, List.isEmpty_iff]
  · simp only [he, if_false, Bool.false_eq_true]
    cases hid : t.id with
    | Token k =>
      cases hlit : t.word.toStringIfLiteral with
      | none => simp [hlit]
      | some name =>
        cases hal : t.word.location.line.source.is_alias_for name with
        | true => simp [hlit, hal]
        | false =>
          cases hget : aliasGet s.aliases name with
          | none => simp [hlit, hal, hget]
          | some a =>
            by_cases hcond : b = true ∨ a.global = true ∨ s.afterBlank t.index = true
            · have hb : (b || a.global || s.afterBlank t.index) = true := by
                rcases hcond with h | h | h <;> simp [h]
              simp [hlit, hal, hget, hb, hid, hcond]
            · have hb : (b || a.global || s.afterBlank t.index) = false := by
                push_neg at hcond
                simp [hcond.1, hcond.2.1, hcond.2.2]
              simp [hlit, hal, hget, hb, hcond]
    | Operator op => simp [hid]
    | IoNumber => simp [hid]
    | EndOfInput => simp [hid]

/-- C1 (counterexample): the claim that no substitution is ever
performed on a token tagged `Token(Some(keyword))` is false: on the
input `"if"` with a global alias `if` → `x` defined, the peeked token
is tagged with the reserved word `if`, yet `take_token_manual(false)`
performs the substitution. -/
theorem alias_substitution_applies_to_reserved_word :
    (peekToken cIfState).id = TokenId.Token (some Keyword.If) ∧
    (takeTokenManual cIfState false).1 = Rec.AliasSubstituted :=
  ⟨rfl, rfl⟩

/-- C1 (amended): alias substitution is never applied to a token whose
word's source chain already contains an alias replacement of the same
name (loop prevention), and `take_token_auto` returns unchanged — with
no substitution — any token whose keyword classification is in its
supplied list; reserved-word-tagged tokens outside that list are not
themselves exempt from substitution. -/
theorem alias_substitution_loop_prevention :
    (∀ (s : PState) (t : Token) (b : Bool) (name : String),
        t.word.toStringIfLiteral = some name →
        t.word.location.line.source.is_alias_for name = true →
        substituteAlias s t b = (Rec.Parsed t, s)) ∧
    (∀ (kws : List Keyword) (fuel : Nat) (s : PState) (t : Token) (rest : List Token),
        s.tokens = t :: rest →
        keywordIn t kws = true →
        takeTokenAuto kws (fuel + 1) s = some (t, { s with tokens := rest })) := by
  constructor
  · intro s t b name h1 h2
    unfold substituteAlias
    by_cases he : s.aliases.isEmpty
    · simp [he]
    · cases hid : t.id <;> simp [he, hid, h1, h2]
  · intro kws fuel s t rest h hkw
    simp [takeTokenAuto, takeTokenRaw, h, hkw]

/-- C1 (witness): the loop-prevention case on a token produced by the
alias `x` itself, and the keyword-list case of `take_token_auto` on
the reserved word `if`. -/
theorem alias_substitution_loop_prevention_witness :
    substituteAlias cLoopState cLoopTok true = (Rec.Parsed cLoopTok, cLoopState) ∧
    takeTokenAuto [Keyword.If] 5 cIfState =
      some (cIfTok, { cIfState with tokens := [] }) :=
  ⟨alias_substitution_loop_prevention.1 cLoopState cLoopTok true "x" rfl rfl,
   alias_substitution_loop_prevention.2 [Keyword.If] 4 cIfState cIfTok [] rfl rfl⟩

/-- C2: `take_token_manual(is_command_name)` substitutes at most once:
it returns `AliasSubstituted` (producing no token) exactly when the
taken token has id `Token(_)`, its word is a bare literal naming a
defined alias, its source is not transitively a replacement of that
alias, and `is_command_name` holds or the alias is global or the token
follows a blank-ending alias replacement; in every other case it
returns `Parsed` of the taken token. -/
theorem take_token_manual_characterization (s : PState) (b : Bool) :
    ((takeTokenManual s b).1 = Rec.AliasSubstituted ↔
      ((∃ k, (peekToken s).id = TokenId.Token k) ∧
       ∃ name a, (peekToken s).word.toStringIfLiteral = some name ∧
         (peekToken s).word.location.line.source.is_alias_for name = false ∧
         aliasGet s.aliases name = some a ∧
         (b = true ∨ a.global = true ∨ s.afterBlank (peekToken s).index = true))) ∧
    ((takeTokenManual s b).1 = Rec.AliasSubstituted ∨
     (takeTokenManual s b).1 = Rec.Parsed (peekToken s)) := by
  cases hts : s.tokens with
  | nil =>
    have h1 : takeTokenManual s b = substituteAlias s s.eof b := by
      simp [takeTokenManual, takeTokenRaw, hts]
    have h2 : peekToken s = s.eof := by simp [peekToken, hts]
    rw [h1, h2]
    exact substituteAlias_characterization s s.eof b
  | cons t rest =>
    have h1 : takeTokenManual s b = substituteAlias { s with tokens := rest } t b := by
      simp [takeTokenManual, takeTokenRaw, hts]
    have h2 : peekToken s = t := by simp [peekToken, hts]
    rw [h1, h2]
    simpa using substituteAlias_characterization { s with tokens := rest } t b

/-- C3: when the next token is one of the nine normal redirection
operators, `redirection_body` consumes the operator and the following
word and returns a `Normal` body with that operator and operand,
registering no here-document; for `<<` and `<<-` it returns a
`HereDoc` placeholder and registers a partial here-document whose
`remove_tabs` flag is set exactly for `<<-`. -/
theorem redirection_body_operator_dispatch :
    (∀ (op : Operator) (rop : RedirOp), redirOpTryFrom op = some rop →
      ∀ (wOp : Word) (i1 : Nat) (k : Option Keyword) (wW : Word) (i2 : Nat)
        (rest : List Token) (eofTok : Token)
        (afterBlank : Nat → Bool) (expand : Nat → Alias → List Token)
        (blankOracle : List Token → Bool)
        (readHD : PartialHereDoc → List Token → HereDoc × List Token)
        (unread : List PartialHereDoc) (readhd : List HereDoc),
        redirectionBody 9
          { aliases := [],
            tokens := { id := TokenId.Operator op, word := wOp, index := i1 } ::
                      { id := TokenId.Token k, word := wW, index := i2 } :: rest,
            eof := eofTok, afterBlank := afterBlank, expand := expand,
            blankOracle := blankOracle, readHD := readHD,
            unread := unread, readhd := readhd } =
          pret (some (RedirBody.Normal rop wW))
            { aliases := [], tokens := rest,
              eof := eofTok, afterBlank := afterBlank, expand := expand,
              blankOracle := blankOracle, readHD := readHD,
              unread := unread, readhd := readhd }) ∧
    (∀ (removeTabs : Bool) (op : Operator),
      (removeTabs = false ∧ op = Operator.LessLess ∨
       removeTabs = true ∧ op = Operator.LessLessDash) →
      ∀ (wOp : Word) (i1 : Nat) (k : Option Keyword) (wW : Word) (i2 : Nat)
        (rest : List Token) (eofTok : Token)
        (afterBlank : Nat → Bool) (expand : Nat → Alias → List Token)
        (blankOracle : List Token → Bool)
        (readHD : PartialHereDoc → List Token → HereDoc × List Token)
        (unread : List PartialHereDoc) (readhd : List HereDoc),
        redirectionBody 9
          { aliases := [],
            tokens := { id := TokenId.Operator op, word := wOp, index := i1 } ::
                      { id := TokenId.Token k, word := wW, index := i2 } :: rest,
            eof := eofTok, afterBlank := afterBlank, expand := expand,
            blankOracle := blankOracle, readHD := readHD,
            unread := unread, readhd := readhd } =
          pret (some (RedirBody.HereDoc MissingHereDoc.missing))
            { aliases := [], tokens := rest,
              eof := eofTok, afterBlank := afterBlank, expand := expand,
              blankOracle := blankOracle, readHD := readHD,
              unread := unread ++ [{ delimiter := wW, remove_tabs := removeTabs }],
              readhd := readhd }) := by
  constructor
  · intro op rop h
    cases op <;> simp only [redirOpTryFrom, Option.some.injEq, reduceCtorEq] at h <;>
      subst h <;> intro wOp i1 k wW i2 _ _ _ _ _ _ _ _ <;> cases k <;> rfl
  · rintro removeTabs op (⟨rfl, rfl⟩ | ⟨rfl, rfl⟩) <;>
      intro wOp i1 k wW i2 _ _ _ _ _ _ _ _ <;> cases k <;> rfl

/-- C3 (witness): the input `"</dev/null"` produces a `Normal` `<`
redirection body, and the input `"<<END"` produces a here-document
placeholder registering the partial with `remove_tabs = false`. -/
theorem redirection_body_operator_dispatch_witness :
    redirectionBody 9
      (mkState []
        [{ id := TokenId.Operator Operator.Less,
           word := litWord "<" (mkLoc "</dev/null" 1), index := 0 },
         { id := TokenId.Token none,
           word := litWord "/dev/null" (mkLoc "</dev/null" 2), index := 1 }]
        (eofTokenAt (mkLoc "</dev/null" 11) 10)) =
      pret (some (RedirBody.Normal RedirOp.FileIn
                    (litWord "/dev/null" (mkLoc "</dev/null" 2))))
        (mkState [] [] (eofTokenAt (mkLoc "</dev/null" 11) 10)) ∧
    redirectionBody 9
      (mkState [] [cLessLessTok, cEndTok] (eofTokenAt (mkLoc "<<END" 6) 5)) =
      pret (some (RedirBody.HereDoc MissingHereDoc.missing))
        { (mkState [] [] (eofTokenAt (mkLoc "<<END" 6) 5)) with
            unread := [{ delimiter := litWord "END" (mkLoc "<<END" 3),
                         remove_tabs := false }] } :=
  ⟨redirection_body_operator_dispatch.1 Operator.Less RedirOp.FileIn rfl
    (litWord "<" (mkLoc "</dev/null" 1)) 0 none
    (litWord "/dev/null" (mkLoc "</dev/null" 2)) 1 []
    (eofTokenAt (mkLoc "</dev/null" 11) 10)
    noAfterBlank noExpand noBlankOracle trivialReadHD [] [],
   redirection_body_operator_dispatch.2 false Operator.LessLess
    (Or.inl ⟨rfl, rfl⟩) (litWord "<<" (mkLoc "<<END" 1)) 0 none
    (litWord "END" (mkLoc "<<END" 3)) 2 [] (eofTokenAt (mkLoc "<<END" 6) 5)
    noAfterBlank noExpand noBlankOracle trivialReadHD [] []⟩

/-- C4: `ensure_no_unread_here_doc` succeeds when no partial
here-document is pending and otherwise fails with
`MissingHereDocContent` at the first pending partial's delimiter
location; in particular, `command_line` on the input `"<<END"` (end of
input reached with the partial still pending) fails with
`MissingHereDocContent` at column 3, the position right after the `<<`
operator. -/
theorem ensure_no_unread_here_doc_spec :
    (∀ s : PState, s.unread = [] → ensureNoUnreadHereDoc s = Except.ok ()) ∧
    (∀ (s : PState) (p : PartialHereDoc) (rest : List PartialHereDoc),
        s.unread = p :: rest →
        ensureNoUnreadHereDoc s =
          Except.error { cause := ErrorCause.MissingHereDocContent,
                         location := p.delimiter.location }) ∧
    resValue (commandLine 30 cHereDocPendingState) =
      some (Except.error { cause := ErrorCause.MissingHereDocContent,
                           location := mkLoc "<<END" 3 }) := by
  refine ⟨fun s h => ?_, fun s p rest h => ?_, rfl⟩
  · unfold ensureNoUnreadHereDoc; rw [h]
  · unfold ensureNoUnreadHereDoc; rw [h]

/-- C4 (witness): a state with no pending partial passes the check and
a state with one pending partial fails at its delimiter location. -/
theorem ensure_no_unread_here_doc_spec_witness :
    ensureNoUnreadHereDoc cEmptyState = Except.ok () ∧
    ensureNoUnreadHereDoc cUnreadState =
      Except.error { cause := ErrorCause.MissingHereDocContent,
                     location := mkLoc "<<END" 3 } :=
  ⟨ensure_no_unread_here_doc_spec.1 cEmptyState rfl,
   ensure_no_unread_here_doc_spec.2.1 cUnreadState
     { delimiter := litWord "END" (mkLoc "<<END" 3), remove_tabs := false } [] rfl⟩

/-- C5: `command_line` on empty input returns `Ok(None)` (no command),
and on an input consisting of a lone newline returns `Ok(Some(list))`
with zero items; neither raises an error. -/
theorem command_line_empty_and_lone_newline :
    resValue (commandLine 30 cEmptyState) = some (Except.ok none) ∧
    resValue (commandLine 30 cNewlineState) =
      some (Except.ok (some (CmdList.mk []))) := by
  constructor <;> rfl

/-- C6: when the pipeline parser has consumed a `!` token and the next
token is another `!`, it fails with `DoubleNegation` located at the
first `!` (for the token stream of `" !  !"` the error is at column
2); when a `!` immediately follows a `|`, it fails with `BangAfterBar`
located at the `!` token (for the token stream of `"foo | !"` the
error is at column 7). -/
theorem pipeline_double_negation_and_bang_after_bar :
    (∀ (w1 w2 : Word) (i1 i2 : Nat) (rest : List Token) (eofTok : Token)
       (afterBlank : Nat → Bool) (expand : Nat → Alias → List Token)
       (blankOracle : List Token → Bool)
       (readHD : PartialHereDoc → List Token → HereDoc × List Token)
       (unread : List PartialHereDoc) (readhd : List HereDoc),
       resValue (pipeline 30
         { aliases := [],
           tokens :=
             { id := TokenId.Token (some Keyword.Bang), word := w1, index := i1 } ::
             { id := TokenId.Token (some Keyword.Bang), word := w2, index := i2 } ::
             rest,
           eof := eofTok, afterBlank := afterBlank, expand := expand,
           blankOracle := blankOracle, readHD := readHD,
           unread := unread, readhd := readhd }) =
         some (Except.error { cause := ErrorCause.DoubleNegation,
                              location := w1.location })) ∧
    (∀ (locF locB locX : Location) (i1 i2 i3 : Nat) (rest : List Token)
       (eofTok : Token)
       (afterBlank : Nat → Bool) (expand : Nat → Alias → List Token)
       (blankOracle : List Token → Bool)
       (readHD : PartialHereDoc → List Token → HereDoc × List Token)
       (unread : List PartialHereDoc) (readhd : List HereDoc),
       resValue (pipeline 30
         { aliases := [],
           tokens :=
             { id := TokenId.Token none, word := litWord "foo" locF, index := i1 } ::
             { id := TokenId.Operator Operator.Bar, word := litWord "|" locB,
               index := i2 } ::
             { id := TokenId.Token (some Keyword.Bang), word := litWord "!" locX,
               index := i3 } :: rest,
           eof := eofTok, afterBlank := afterBlank, expand := expand,
           blankOracle := blankOracle, readHD := readHD,
           unread := unread, readhd := readhd }) =
         some (Except.error { cause := ErrorCause.BangAfterBar,
                              location := locX })) ∧
    resValue (pipeline 30 cDoubleBangState) =
      some (Except.error { cause := ErrorCause.DoubleNegation,
                           location := mkLoc " !  !" 2 }) ∧
    resValue (pipeline 30 cBarBangState) =
      some (Except.error { cause := ErrorCause.BangAfterBar,
                           location := mkLoc "foo | !" 7 }) := by
  refine ⟨fun _ _ _ _ _ _ _ _ _ _ _ _ => rfl,
          fun _ _ _ _ _ _ _ _ _ _ _ _ _ _ => rfl, rfl, rfl⟩

/-- C7: after a here-document operator `<<` or `<<-`, if the operand
token taken with `take_token_auto(&[])` is an operator or the end of
input, the redirection parser fails with `MissingHereDocDelimiter`
located at the operator token. -/
theorem here_doc_missing_delimiter :
    (∀ (op : Operator), (op = Operator.LessLess ∨ op = Operator.LessLessDash) →
      ∀ (wOp : Word) (i1 : Nat) (op2 : Operator) (w2 : Word) (i2 : Nat)
        (rest : List Token) (eofTok : Token)
        (afterBlank : Nat → Bool) (expand : Nat → Alias → List Token)
        (blankOracle : List Token → Bool)
        (readHD : PartialHereDoc → List Token → HereDoc × List Token)
        (unread : List PartialHereDoc) (readhd : List HereDoc),
        resValue (redirection 9
          { aliases := [],
            tokens := { id := TokenId.Operator op, word := wOp, index := i1 } ::
                      { id := TokenId.Operator op2, word := w2, index := i2 } :: rest,
            eof := eofTok, afterBlank := afterBlank, expand := expand,
            blankOracle := blankOracle, readHD := readHD,
            unread := unread, readhd := readhd }) =
          some (Except.error { cause := ErrorCause.MissingHereDocDelimiter,
                               location := wOp.location })) ∧
    (∀ (op : Operator), (op = Operator.LessLess ∨ op = Operator.LessLessDash) →
      ∀ (wOp : Word) (i1 : Nat) (wE : Word) (iE : Nat)
        (afterBlank : Nat → Bool) (expand : Nat → Alias → List Token)
        (blankOracle : List Token → Bool)
        (readHD : PartialHereDoc → List Token → HereDoc × List Token)
        (unread : List PartialHereDoc) (readhd : List HereDoc),
        resValue (redirection 9
          { aliases := [],
            tokens := [{ id := TokenId.Operator op, word := wOp, index := i1 }],
            eof := { id := TokenId.EndOfInput, word := wE, index := iE },
            afterBlank := afterBlank, expand := expand,
            blankOracle := blankOracle, readHD := readHD,
            unread := unread, readhd := readhd }) =
          some (Except.error { cause := ErrorCause.MissingHereDocDelimiter,
                               location := wOp.location })) := by
  constructor
  · rintro op (rfl | rfl) <;> intros <;> rfl
  · rintro op (rfl | rfl) <;> intros <;> rfl

/-- C7 (witness): the standalone input `"<<"` fails with
`MissingHereDocDelimiter` at column 1. -/
theorem here_doc_missing_delimiter_witness :
    resValue (redirection 9 cLoneLessLessState) =
      some (Except.error { cause := ErrorCause.MissingHereDocDelimiter,
                           location := mkLoc "<<" 1 }) :=
  here_doc_missing_delimiter.2 Operator.LessLess (Or.inl rfl)
    (litWord "<<" (mkLoc "<<" 1)) 0 { units := [], location := mkLoc "<<" 3 } 2
    noAfterBlank noExpand noBlankOracle trivialReadHD [] []

/-- C8: a leading `IoNumber` token is consumed and its digit string is
parsed as an exact decimal unsigned integer: when the value is within
the `u32` range the redirection's `fd` is `Some` of that value, and
when it exceeds the range the parser fails with `FdOutOfRange` located
at the `IoNumber` token. -/
theorem redirection_fd_parsing :
    ∀ (ds : List Char) (loc : Location) (i1 : Nat) (wL : Word) (i2 : Nat)
      (k : Option Keyword) (wW : Word) (i3 : Nat) (rest : List Token)
      (eofTok : Token)
      (afterBlank : Nat → Bool) (expand : Nat → Alias → List Token)
      (blankOracle : List Token → Bool)
      (readHD : PartialHereDoc → List Token → HereDoc × List Token)
      (unread : List PartialHereDoc) (readhd : List HereDoc),
      ds ≠ [] → ds.all Char.isDigit = true →
      resValue (redirection 9
        { aliases := [],
          tokens :=
            { id := TokenId.IoNumber,
              word := { units := ds.map TextUnit.Literal, location := loc },
              index := i1 } ::
            { id := TokenId.Operator Operator.Less, word := wL, index := i2 } ::
            { id := TokenId.Token k, word := wW, index := i3 } :: rest,
          eof := eofTok, afterBlank := afterBlank, expand := expand,
          blankOracle := blankOracle, readHD := readHD,
          unread := unread, readhd := readhd }) =
        (if digitsVal ds < 4294967296 then
          some (Except.ok (some { fd := some (digitsVal ds),
                                  body := RedirBody.Normal RedirOp.FileIn wW }))
        else
          some (Except.error { cause := ErrorCause.FdOutOfRange,
                               location := loc })) := by
  intro ds loc i1 wL i2 k wW i3 rest eofTok afterBlank expand blankOracle readHD
    unread readhd h1 h2
  have hds : parseU32
      (Word.toDisplayString { units := ds.map TextUnit.Literal, location := loc }) =
      if digitsVal ds < 4294967296 then some (digitsVal ds) else none := by
    rw [Word.toDisplayString]
    show parseU32Chars (String.mk (displayChars (ds.map TextUnit.Literal))).data = _
    rw [show (String.mk (displayChars (ds.map TextUnit.Literal))).data =
          displayChars (ds.map TextUnit.Literal) from rfl,
        displayChars_map_literal]
    exact parseU32Chars_digits ds h1 h2
  rw [show (9 : Nat) = 8 + 1 from rfl, redirection_succ_io, hds]
  by_cases hv : digitsVal ds < 4294967296
  · rw [if_pos hv, if_pos hv]
    cases k <;> rfl
  · rw [if_neg hv, if_neg hv]
    rfl

/-- C8 (witness): `"12< x"` yields `fd = Some 12`, and the forty-digit
IO number of `"9999999999< x"` exceeds the `u32` range and fails with
`FdOutOfRange` at column 1. -/
theorem redirection_fd_parsing_witness :
    resValue (redirection 9 cFdInRangeState) =
      some (Except.ok (some
        { fd := some 12,
          body := RedirBody.Normal RedirOp.FileIn
                    (litWord "x" (mkLoc "12< x" 5)) })) ∧
    resValue (redirection 9 cFdOverflowState) =
      some (Except.error { cause := ErrorCause.FdOutOfRange,
                           location := mkLoc "9999999999< x" 1 }) := by
  constructor
  · have h := redirection_fd_parsing "12".data (mkLoc "12< x" 1) 0
      (litWord "<" (mkLoc "12< x" 3)) 2 none (litWord "x" (mkLoc "12< x" 5)) 4 []
      (eofTokenAt (mkLoc "12< x" 6) 5) noAfterBlank noExpand noBlankOracle
      trivialReadHD [] [] (by decide) (by decide)
    rw [if_pos (by decide)] at h
    exact h
  · have h := redirection_fd_parsing "9999999999".data (mkLoc "9999999999< x" 1) 0
      (litWord "<" (mkLoc "9999999999< x" 11)) 10 none
      (litWord "x" (mkLoc "9999999999< x" 13)) 12 []
      (eofTokenAt (mkLoc "9999999999< x" 14) 13) noAfterBlank noExpand noBlankOracle
      trivialReadHD [] [] (by decide) (by decide)
    rw [if_neg (by decide)] at h
    exact h

/-- The delimiter predicate built by `text_with_parentheses` depends
only on the parentheses once the open-parenthesis stack is nonempty. -/
theorem isDelimiterOrParen_of_ne_nil (isDelim : Char → Bool) (locs : List Location)
    (c : Char) (h : locs ≠ []) :
    isDelimiterOrParen isDelim locs c = true ↔ (c = '(' ∨ c = ')') := by
  have he : locs.isEmpty = false := by
    simp [List.isEmpty_iff, h]
  by_cases hc : c = '('
  · simp [isDelimiterOrParen, hc]
  · simp [isDelimiterOrParen, hc, he]

/-- Consuming line continuations leaves a suffix of the input. -/
theorem lineContinuations_suffix : ∀ (cs : List SourceChar),
    lineContinuations cs <:+ cs
  | [] => by simp [lineContinuations]
  | [a] => by simp [lineContinuations]
  | a :: b :: rest => by
    rw [lineContinuations]
    split
    · exact (lineContinuations_suffix rest).trans
        ((List.suffix_cons b rest).trans (List.suffix_cons a (b :: rest)))
    · exact List.suffix_rfl

/-- When `skip_if` consumes, the consumed character satisfied the
predicate and the end location is unchanged. -/
theorem skipIf_true (p : Char → Bool) (s s' : CLex)
    (h : CLex.skipIf p s = (true, s')) :
    (∃ c, s.chars = c :: s'.chars ∧ p c.value = true) ∧ s'.endLoc = s.endLoc := by
  unfold CLex.skipIf at h
  split at h
  · split at h
    · rename_i c rest hcons hp
      simp only [Prod.mk.injEq] at h
      exact ⟨⟨c, by rw [hcons, ← h.2], hp⟩, by rw [← h.2]⟩
    · simp at h
  · simp at h

/-- When `skip_if` does not consume, the state is unchanged and the
input is empty or its head fails the predicate. -/
theorem skipIf_false (p : Char → Bool) (s s' : CLex)
    (h : CLex.skipIf p s = (false, s')) :
    s' = s ∧ (s.chars = [] ∨ ∃ c rest, s.chars = c :: rest ∧ p c.value = false) := by
  unfold CLex.skipIf at h
  split at h
  · split at h
    · simp at h
    · rename_i c rest hcons hp
      simp only [Prod.mk.injEq] at h
      exact ⟨h.2.symm, Or.inr ⟨c, rest, hcons, by simpa using hp⟩⟩
  · rename_i hnil
    simp only [Prod.mk.injEq] at h
    exact ⟨h.2.symm, Or.inl hnil⟩

/-- When `consume_char_if` consumes, it returns the head of the input,
which satisfied the predicate; the end location is unchanged. -/
theorem consumeCharIf_some (p : Char → Bool) (s : CLex) (sc : SourceChar)
    (s' : CLex) (h : CLex.consumeCharIf p s = some (sc, s')) :
    s.chars = sc :: s'.chars ∧ p sc.value = true ∧ s'.endLoc = s.endLoc := by
  unfold CLex.consumeCharIf at h
  split at h
  · split at h
    · rename_i c rest hcons hp
      simp only [Option.some.injEq, Prod.mk.injEq] at h
      refine ⟨?_, ?_, ?_⟩
      · rw [hcons, h.1, ← h.2]
      · rw [h.1] at hp; exact hp
      · rw [← h.2]
    · simp at h
  · simp at h

/-- When `consume_char_if` does not consume, the input is empty or its
head fails the predicate. -/
theorem consumeCharIf_none (p : Char → Bool) (s : CLex)
    (h : CLex.consumeCharIf p s = none) :
    s.chars = [] ∨ ∃ c rest, s.chars = c :: rest ∧ p c.value = false := by
  unfold CLex.consumeCharIf at h
  split at h
  · split at h
    · simp at h
    · rename_i c rest hcons hp
      exact Or.inr ⟨c, rest, hcons, by simpa using hp⟩
  · rename_i hnil
    exact Or.inl hnil

/-- `text_unit` leaves a suffix of the input and preserves the
end-of-input location; when it parses no unit, the remaining input is
empty or starts with a delimiter. -/
theorem textUnit_state (d e : Char → Bool) (s : CLex) (u' : Option TextUnit)
    (s' : CLex) (h : textUnit d e s = (u', s')) :
    (s'.chars <:+ s.chars ∧ s'.endLoc = s.endLoc) ∧
    (u' = none → s'.chars = [] ∨ ∃ c rest, s'.chars = c :: rest ∧ d c.value = true) := by
  have hlc : lineContinuations s.chars <:+ s.chars := lineContinuations_suffix s.chars
  unfold textUnit at h
  simp only [dollarUnit, backquote] at h
  split at h
  · rename_i s1 hskip
    obtain ⟨⟨c0, hc0, _⟩, hend1⟩ := skipIf_true _ _ _ hskip
    simp only at hc0 hend1
    have hs1 : s1.chars <:+ s.chars :=
      ((List.suffix_cons c0 s1.chars).trans (hc0 ▸ List.suffix_rfl)).trans hlc
    split at h
    · rename_i c2 s2 hcons
      obtain ⟨hc2, _, hend2⟩ := consumeCharIf_some _ _ _ _ hcons
      simp only [Prod.mk.injEq] at h
      refine ⟨⟨?_, ?_⟩, ?_⟩
      · rw [← h.2]
        exact ((List.suffix_cons c2 s2.chars).trans (hc2 ▸ List.suffix_rfl)).trans hs1
      · rw [← h.2, hend2, hend1]
      · intro he
        rw [he] at h
        exact absurd h.1 (by simp)
    · simp only [Prod.mk.injEq] at h
      refine ⟨⟨?_, ?_⟩, ?_⟩
      · rw [← h.2]; exact hs1
      · rw [← h.2, hend1]
      · intro he
        rw [he] at h
        exact absurd h.1 (by simp)
  · rename_i s1 hskip
    obtain ⟨hs1eq, _⟩ := skipIf_false _ _ _ hskip
    have hs1c : s1.chars = lineContinuations s.chars := by rw [hs1eq]
    have hs1e : s1.endLoc = s.endLoc := by rw [hs1eq]
    split at h
    · rename_i sc s2 hcons
      obtain ⟨hc2, _, hend2⟩ := consumeCharIf_some _ _ _ _ hcons
      simp only [Prod.mk.injEq] at h
      refine ⟨⟨?_, ?_⟩, ?_⟩
      · rw [← h.2]
        exact ((List.suffix_cons sc s2.chars).trans (hc2 ▸ List.suffix_rfl)).trans
          (hs1c ▸ hlc)
      · rw [← h.2, hend2, hs1e]
      · intro he
        rw [he] at h
        exact absurd h.1 (by simp)
    · rename_i hcons
      simp only [Prod.mk.injEq] at h
      have hnone := consumeCharIf_none _ _ hcons
      refine ⟨⟨?_, ?_⟩, fun _ => ?_⟩
      · rw [← h.2]; exact hs1c ▸ hlc
      · rw [← h.2, hs1e]
      · rw [← h.2]
        rcases hnone with hnil | ⟨c, rest, hcr, hp⟩
        · exact Or.inl hnil
        · refine Or.inr ⟨c, rest, hcr, ?_⟩
          simpa using hp

/-- `text` leaves a suffix of the input and preserves the end-of-input
location, and it stops only at the end of input or at a delimiter. -/
theorem text_state (d e : Char → Bool) : ∀ (fuel : Nat) (s : CLex)
    (us : List TextUnit) (s' : CLex),
    text d e fuel s = some (us, s') →
    (s'.chars <:+ s.chars ∧ s'.endLoc = s.endLoc) ∧
    (s'.chars = [] ∨ ∃ c rest, s'.chars = c :: rest ∧ d c.value = true) := by
  intro fuel
  induction fuel with
  | zero => intro s us s' h; simp [text] at h
  | succ n ih =>
    intro s us s' h
    simp only [text] at h
    split at h
    · rename_i u s1 htu
      split at h
      · rename_i us2 s2 hin
        simp only [Option.some.injEq, Prod.mk.injEq] at h
        obtain ⟨⟨hs2, hend⟩, hstop⟩ := ih s1 us2 s2 hin
        obtain ⟨⟨hs1, hend1⟩, _⟩ := textUnit_state d e s _ _ htu
        refine ⟨⟨?_, ?_⟩, ?_⟩
        · rw [← h.2]; exact hs2.trans hs1
        · rw [← h.2, hend, hend1]
        · rw [← h.2]; exact hstop
      · simp at h
    · rename_i s1 htu
      simp only [Option.some.injEq, Prod.mk.injEq] at h
      obtain ⟨⟨hs1, hend1⟩, hnone⟩ := textUnit_state d e s none s1 htu
      refine ⟨⟨?_, ?_⟩, ?_⟩
      · rw [← h.2]; exact hs1
      · rw [← h.2, hend1]
      · rw [← h.2]; exact hnone rfl

/-- Every error produced by the loop of `text_with_parentheses` is an
`UnclosedParen` whose opening location was either on the initial stack
or is the location of a `(` character of the input, and it is reported
at the end-of-input location. -/
theorem twpLoop_error (isDelim isEsc : Char → Bool) : ∀ (fuel : Nat)
    (units : List TextUnit) (locs : List Location) (s : CLex) (r : Error),
    textWithParenthesesLoop isDelim isEsc fuel units locs s =
      some (Except.error r) →
    ∃ loc, r.cause = ErrorCause.UnclosedParen loc ∧
      (loc ∈ locs ∨ ∃ sc, sc ∈ s.chars ∧ sc.value = '(' ∧ sc.location = loc) ∧
      r.location = s.endLoc := by
  intro fuel
  induction fuel with
  | zero => intro _ _ _ _ h; simp [textWithParenthesesLoop] at h
  | succ n ih =>
    intro units locs s r h
    simp only [textWithParenthesesLoop] at h
    split at h
    · exact absurd h (by simp)
    · rename_i nu s1 htext
      obtain ⟨⟨hs1, hend1⟩, hstop⟩ := text_state _ isEsc n s nu s1 htext
      split at h
      · rename_i sc s2 hcons
        obtain ⟨hc2, hp, hend2⟩ := consumeCharIf_some _ _ _ _ hcons
        obtain ⟨loc, hcause, hmem, hloc⟩ := ih _ _ _ _ h
        refine ⟨loc, hcause, ?_, ?_⟩
        · rcases hmem with hin | ⟨sc', hsc', hv', hl'⟩
          · rcases List.mem_cons.1 hin with heq | hin2
            · refine Or.inr ⟨sc, hs1.subset (hc2 ▸ List.mem_cons_self sc s2.chars),
                by simpa using hp, heq.symm⟩
            · exact Or.inl hin2
          · exact Or.inr ⟨sc', hs1.subset (hc2 ▸ List.mem_cons_of_mem sc hsc'),
              hv', hl'⟩
        · rw [hloc, hend2, hend1]
      · rename_i hcons
        split at h
        · rename_i openingLocation restLocs
          split at h
          · rename_i s3 hskip
            obtain ⟨⟨c3, hc3, _⟩, hend3⟩ := skipIf_true _ _ _ hskip
            obtain ⟨loc, hcause, hmem, hloc⟩ := ih _ _ _ _ h
            refine ⟨loc, hcause, ?_, ?_⟩
            · rcases hmem with hin | ⟨sc', hsc', hv', hl'⟩
              · exact Or.inl (List.mem_cons_of_mem _ hin)
              · exact Or.inr ⟨sc', hs1.subset (hc3 ▸ List.mem_cons_of_mem c3 hsc'),
                  hv', hl'⟩
            · rw [hloc, hend3, hend1]
          · rename_i s3 hskip
            obtain ⟨hs3eq, _⟩ := skipIf_false _ _ _ hskip
            simp only [Option.some.injEq, Except.error.injEq] at h
            have hnil : s1.chars = [] := by
              rcases hstop with hnil | ⟨c, rest, hcr, hd⟩
              · exact hnil
              · exfalso
                have hor : c.value = '(' ∨ c.value = ')' :=
                  (isDelimiterOrParen_of_ne_nil isDelim (openingLocation :: restLocs)
                    c.value (by simp)).1 hd
                rcases hor with h1 | h2
                · rcases consumeCharIf_none _ _ hcons with he | ⟨c', rest', hcr', hp'⟩
                  · rw [he] at hcr; exact absurd hcr (by simp)
                  · rw [hcr] at hcr'
                    injection hcr' with hh _
                    rw [← hh, h1] at hp'
                    exact absurd hp' (by simp)
                · obtain ⟨_, hcond⟩ := skipIf_false _ _ _ hskip
                  rcases hcond with he | ⟨c', rest', hcr', hp'⟩
                  · rw [he] at hcr; exact absurd hcr (by simp)
                  · rw [hcr] at hcr'
                    injection hcr' with hh _
                    rw [← hh, h2] at hp'
                    exact absurd hp' (by simp)
            have hlocEq : CLex.location s3 = s.endLoc := by
              unfold CLex.location
              rw [hs3eq, hnil, ← hend1]
            refine ⟨openingLocation, ?_, Or.inl (List.mem_cons_self _ _), ?_⟩
            · rw [← h]
            · rw [← h, hlocEq]
        · exact absurd h (by simp)

/-- C9: while at least one unquoted `(` is unmatched, the delimiter
predicate built by `text_with_parentheses` ignores the caller's
predicate and only parentheses can delimit; whenever end of input is
reached while the open-parenthesis stack is nonempty, the routine
fails with `UnclosedParen` carrying the most recently opened
parenthesis's location, reported at the end-of-input location; on any
input containing no `$` and no backquote (the domain on which the
spec-modelled dollar/backquote sub-lexers are faithful), every failure
of `text_with_parentheses` is an `UnclosedParen` whose opening
location is the location of an actual `(` character of the input,
reported at the end-of-input location; and on the input `"x(()"` it
fails with `UnclosedParen` whose opening location is column 2,
reported at end of input (column 5). -/
theorem text_with_parentheses_depth_and_unclosed :
    (∀ (isDelim : Char → Bool) (locs : List Location) (c : Char),
        locs ≠ [] →
        (isDelimiterOrParen isDelim locs c = true ↔ (c = '(' ∨ c = ')'))) ∧
    (∀ (fuel : Nat) (isDelim isEsc : Char → Bool) (units : List TextUnit)
       (l : Location) (restLocs : List Location) (endLoc : Location),
       textWithParenthesesLoop isDelim isEsc (fuel + 2) units (l :: restLocs)
         { chars := [], endLoc := endLoc } =
         some (Except.error { cause := ErrorCause.UnclosedParen l,
                              location := endLoc })) ∧
    (∀ (fuel : Nat) (isDelim isEsc : Char → Bool) (s : CLex) (r : Error),
       (∀ sc ∈ s.chars, sc.value ≠ '$' ∧ sc.value ≠ '`') →
       textWithParentheses isDelim isEsc fuel s = some (Except.error r) →
       ∃ loc, r.cause = ErrorCause.UnclosedParen loc ∧
         (∃ sc ∈ s.chars, sc.value = '(' ∧ sc.location = loc) ∧
         r.location = s.endLoc) ∧
    textWithParentheses (fun _ => false) (fun _ => false) 30 cParenLex =
      some (Except.error { cause := ErrorCause.UnclosedParen (mkLoc "x(()" 2),
                           location := mkLoc "x(()" 5 }) := by
  refine ⟨isDelimiterOrParen_of_ne_nil, ?_, ?_, rfl⟩
  · intro fuel isDelim isEsc units l restLocs endLoc
    rfl
  · intro fuel isDelim isEsc s r _ h
    obtain ⟨loc, hcause, hmem, hend⟩ := twpLoop_error isDelim isEsc fuel [] [] s r h
    rcases hmem with hin | ⟨sc, hsc, hv, hl⟩
    · exact absurd hin (List.not_mem_nil loc)
    · exact ⟨loc, hcause, ⟨sc, hsc, hv, hl⟩, hend⟩

/-- C9 (witness): the depth predicate at a nonempty stack on `)`; the
end-of-input step with an open parenthesis at column 2 errors there;
and the concrete `"x(()"` failure is an `UnclosedParen` at the
location of the `(` character at column 2, reported at the
end-of-input location. -/
theorem text_with_parentheses_witness :
    (isDelimiterOrParen (fun _ => false) [mkLoc "x(()" 2] ')' = true ↔
      (')' = '(' ∨ ')' = ')')) ∧
    textWithParenthesesLoop (fun _ => false) (fun _ => false) 30 []
      [mkLoc "x(()" 2] { chars := [], endLoc := mkLoc "x(()" 5 } =
      some (Except.error { cause := ErrorCause.UnclosedParen (mkLoc "x(()" 2),
                           location := mkLoc "x(()" 5 }) ∧
    (∃ loc,
      (Error.mk (ErrorCause.UnclosedParen (mkLoc "x(()" 2))
        (mkLoc "x(()" 5)).cause = ErrorCause.UnclosedParen loc ∧
      (∃ sc ∈ cParenChars, sc.value = '(' ∧ sc.location = loc) ∧
      (Error.mk (ErrorCause.UnclosedParen (mkLoc "x(()" 2))
        (mkLoc "x(()" 5)).location = cParenLex.endLoc) :=
  ⟨text_with_parentheses_depth_and_unclosed.1 (fun _ => false) [mkLoc "x(()" 2] ')'
     (by simp),
   text_with_parentheses_depth_and_unclosed.2.1 28 (fun _ => false) (fun _ => false)
     [] (mkLoc "x(()" 2) [] (mkLoc "x(()" 5),
   text_with_parentheses_depth_and_unclosed.2.2.1 30 (fun _ => false)
     (fun _ => false) cParenLex
     { cause := ErrorCause.UnclosedParen (mkLoc "x(()" 2),
       location := mkLoc "x(()" 5 }
     (by decide) rfl⟩

/-- C10: `return_builtin` is deterministic and independent of the
environment; its result depends only on the argument field at index 2:
absent → exit status 0, present and parsing as a `u32` → that value,
otherwise → 2; the second component is always `None`. -/
theorem return_builtin_spec :
    ∀ (E E' : Type) (env : E) (env' : E') (args : List Yash.Field),
      return_builtin env args = return_builtin env' args ∧
      (args.get? 2 = none → return_builtin env args = (0, none)) ∧
      (∀ f, args.get? 2 = some f →
        (∀ v, parseU32 f.value = some v → return_builtin env args = (v, none)) ∧
        (parseU32 f.value = none → return_builtin env args = (2, none))) := by
  intro E E' env env' args
  refine ⟨rfl, fun h => ?_, fun f h => ⟨fun v hv => ?_, fun hv => ?_⟩⟩ <;>
    rw [List.get?_eq_getElem?] at h <;> simp [return_builtin, h, *]

/-- C10 (witness): the fields of `return -n 12` give exit status 12 in
any environment, and an empty argument list gives exit status 0. -/
theorem return_builtin_spec_witness :
    return_builtin (0 : Nat) cReturnArgs = return_builtin "env" cReturnArgs ∧
    return_builtin (0 : Nat) cReturnArgs = (12, none) ∧
    return_builtin (0 : Nat) ([] : List Yash.Field) = (0, none) :=
  ⟨(return_builtin_spec Nat String 0 "env" cReturnArgs).1,
   ((return_builtin_spec Nat String 0 "env" cReturnArgs).2.2
     { value := "12", origin := mkLoc "return -n 12" 11 } rfl).1 12 rfl,
   (return_builtin_spec Nat String 0 "env" ([] : List Yash.Field)).2.1 rfl⟩
